import Mathlib

/-!
# Verification of the ONNX graph-fusion and rewrite engine

Shallow embedding of the graph model, pattern matcher, fusion passes and
topological sorter of the repository
(`onnxruntime/python/tools/quantization/onnx_model.py`,
`onnxruntime/python/tools/transformers/fusion_quickgelu.py`,
`onnxruntime/python/tools/transformers/fusion_qordered_matmul.py`,
`onnxruntime/python/tools/transformers/onnx_model_tulr.py`).

Conventions of the embedding:
* tensor payloads are modelled as lists of rationals (`ℚ`); the constants the
  passes compare against (`1.7021484375`, `1.5`, `0`, tolerances) are exactly
  representable in binary floating point, so equality / tolerance comparisons
  of the Python code coincide with the rational ones on the values used;
* Python functions that can raise are embedded in `Except String`; a raised
  exception is `.error`;
* Python dict/list indexing that cannot fail on the exercised paths is
  embedded with `getD` defaults; indexing whose failure behaviour a claim
  depends on is embedded in `Except`;
* protobuf message equality in Python (`in`, `list.remove`, `==`) is value
  equality, which matches the structural equality of the Lean structures.
-/

namespace Onnx

/-! ### Kernel-computable exact rational arithmetic

The Batteries `ℚ` arithmetic (`Rat.mul`, `Rat.sub`, `Rat.ofScientific`, …) is
`@[irreducible]`, so closed terms built from it cannot be evaluated by
`decide`/`rfl`.  The embedding therefore uses `mkRat`-based operations, which
are exact rational arithmetic and kernel-computable. -/

/-- Exact rational multiplication, kernel-computable. -/
def ratMul (a b : ℚ) : ℚ := mkRat (a.num * b.num) (a.den * b.den)

/-- Exact rational subtraction, kernel-computable. -/
def ratSub (a b : ℚ) : ℚ := mkRat (a.num * b.den - b.num * a.den) (a.den * b.den)

/-- Exact rational absolute value, kernel-computable. -/
def ratAbs (a : ℚ) : ℚ := mkRat a.num.natAbs a.den

/-- The QuickGelu approximation constant `1.7021484375` (the float16 rounding
of 1.702, exactly representable in binary floating point), written via
`mkRat` so that it is kernel-computable. -/
def quickGeluAlpha : ℚ := mkRat 17021484375 10000000000

/-- Decidable equality of embedded results (`Except` values). -/
instance exceptDecEq {ε α : Type} [DecidableEq ε] [DecidableEq α] :
    DecidableEq (Except ε α)
  | .ok a, .ok b =>
      match decEq a b with
      | isTrue h => isTrue (by rw [h])
      | isFalse h => isFalse (by intro hc; cases hc; exact h rfl)
  | .error a, .error b =>
      match decEq a b with
      | isTrue h => isTrue (by rw [h])
      | isFalse h => isFalse (by intro hc; cases hc; exact h rfl)
  | .ok _, .error _ => isFalse (by intro hc; cases hc)
  | .error _, .ok _ => isFalse (by intro hc; cases hc)

/-- An ONNX attribute value (the cases the modelled code reads). -/
inductive AttrVal where
  | f (x : ℚ)
  | i (n : Int)
  | ints (ns : List Int)
  | s (str : String)
  | t (dt : Nat) (dims : List Nat) (data : List ℚ)
  deriving DecidableEq, Repr

/-- An ONNX attribute: a name together with a value. -/
structure AttrP where
  name : String
  value : AttrVal
  deriving DecidableEq, Repr

/-- An ONNX node (`NodeProto`): operator type, name, ordered input/output
tensor names, domain and attributes. -/
structure NodeP where
  op_type : String
  name : String
  input : List String
  output : List String
  domain : String := ""
  «attribute» : List AttrP := []
  deriving DecidableEq, Repr

/-- An ONNX initializer (`TensorProto`): name, data-type tag, shape and
payload. -/
structure TensorP where
  name : String
  data_type : Nat
  dims : List Nat
  data : List ℚ
  deriving DecidableEq, Repr

/-- A graph input/output declaration (`ValueInfoProto`); only the name is
relevant to the modelled code. -/
structure ValueInfoP where
  name : String
  deriving DecidableEq, Repr

/-- An ONNX graph: ordered node list, initializers and declared
inputs/outputs. -/
structure Graph where
  node : List NodeP
  initializer : List TensorP
  input : List ValueInfoP
  output : List ValueInfoP
  deriving DecidableEq, Repr

/-- An in-memory numpy array as produced by `onnx.numpy_helper.to_array`:
a shape and a flat payload. -/
structure NDArray where
  shape : List Nat
  data : List ℚ
  deriving DecidableEq, Repr

/-- `numpy_helper.to_array` on a `TensorProto`. -/
def toArray (t : TensorP) : NDArray := ⟨t.dims, t.data⟩

/-- `ndarray.item()`: the single element of a size-1 array; raises on any
other size (`ValueError`), and the fusion code also calls it on `None`
results, which raises `AttributeError`; both are `.error` here. -/
def NDArray.item (a : NDArray) : Except String ℚ :=
  match a.data with
  | [x] => .ok x
  | _ => .error "ValueError: can only convert an array of size 1 to a scalar"

/-- Truthiness of the numpy comparison `arr != 0` as used in
`if zero_point is None or zero_point != 0`: defined for one-element arrays,
raises (ambiguous truth value) otherwise. -/
def NDArray.neZero (a : NDArray) : Except String Bool :=
  match a.data with
  | [x] => .ok (x ≠ 0)
  | _ => .error "ValueError: truth value of an array is ambiguous"

/-- Default node used for out-of-range list indexing that the exercised code
paths never hit. -/
def defaultNode : NodeP := ⟨"", "", [], [], "", []⟩

/-- `self.nodes()[i]` (indexing into the graph's node list). -/
def getN (l : List NodeP) (i : Nat) : NodeP := l.getD i defaultNode

/-- `node.input[i]` with a default for the untaken out-of-range case. -/
def inN (n : NodeP) (i : Nat) : String := n.input.getD i ""

/-- `node.output[i]` with a default for the untaken out-of-range case. -/
def outN (n : NodeP) (i : Nat) : String := n.output.getD i ""

/-! ## `ONNXModel` graph indices (quantization/onnx_model.py) -/

/-- `ONNXModel.output_name_to_node`: dictionary from output name to producing
node; built by iterating nodes in order, so a later node overwrites an earlier
one with the same output name, and empty output names are skipped. -/
def outputNameToNode (l : List NodeP) (t : String) : Option NodeP :=
  if t = "" then none
  else (l.filter (fun n => t ∈ n.output)).getLast?

/-- `ONNXModel.input_name_to_nodes`: dictionary from input name to consuming
nodes, one entry per (node, input occurrence), nodes in list order; empty
input names are skipped. -/
def inputNameToNodes (l : List NodeP) (t : String) : List NodeP :=
  if t = "" then []
  else l.flatMap (fun n => List.replicate (n.input.count t) n)

/-- `ONNXModel.get_children node`: consumers of any output of `node`,
gathered output by output. -/
def getChildren (l : List NodeP) (n : NodeP) : List NodeP :=
  n.output.flatMap (fun o => inputNameToNodes l o)

/-- `ONNXModel.get_initializer name`: first initializer with that name. -/
def getInitializer (g : Graph) (name : String) : Option TensorP :=
  g.initializer.find? (fun t => t.name = name)

/-- The tensor of the first `value` attribute of a node (what
`get_constant_value` reads off a `Constant` node). A non-tensor `value`
attribute yields the protobuf default empty tensor. -/
def constantValueAttr (n : NodeP) : Option NDArray :=
  n.«attribute».findSome? (fun a =>
    if a.name = "value" then
      match a.value with
      | .t _ dims data => some ⟨dims, data⟩
      | _ => some ⟨[], []⟩
    else none)

/-- `ONNXModel.get_constant_value output_name`: first `Constant`-op node
producing the name (reading its `value` attribute), falling back to an
initializer; `none` when the value is not statically known. -/
def getConstantValue (g : Graph) (name : String) : Option NDArray :=
  match g.node.findSome? (fun n =>
      if n.op_type = "Constant" ∧ outN n 0 = name then constantValueAttr n
      else none) with
  | some a => some a
  | none => (getInitializer g name).map toArray

/-- `ONNXModel.get_constant_input node`: first input of the node that resolves
to a constant, with its index. -/
def getConstantInput (g : Graph) (n : NodeP) : Option (Nat × NDArray) :=
  (n.input.enum.findSome? (fun p =>
    (getConstantValue g p.2).map (fun v => (p.1, v))))

/-- `ONNXModel.find_constant_input node expected delta`: index of a constant
input of size 1 whose value is within `delta` of `expected`, else `-1`. -/
def findConstantInput (g : Graph) (n : NodeP) (expected : ℚ)
    (delta : ℚ := mkRat 1 1000000) : Int :=
  match getConstantInput g n with
  | some (i, v) =>
      if v.data.length = 1 ∧ ratAbs (ratSub (v.data.getD 0 0) expected) < delta
      then (i : Int) else -1
  | none => -1

/-- `ONNXModel.has_constant_input`. -/
def hasConstantInput (g : Graph) (n : NodeP) (expected : ℚ)
    (delta : ℚ := mkRat 1 1000000) : Bool :=
  findConstantInput g n expected delta ≥ 0

/-! ## Pattern matcher (quantization/onnx_model.py) -/

/-- `ONNXModel.get_parent node idx`: producer of the tensor feeding input
`idx`, `None` when the input is out of range or has no producing node. -/
def getParent (l : List NodeP) (n : NodeP) (idx : Nat) : Option NodeP :=
  if n.input.length ≤ idx then none
  else outputNameToNode l (n.input.getD idx "")

/-- `ONNXModel.match_first_parent node op_type exclude`: scans the inputs in
order and returns the first producing parent with the given op type that is
not excluded, together with the matched input index. -/
def matchFirstParent (l : List NodeP) (n : NodeP) (opType : String)
    (exclude : List NodeP) : Option (NodeP × Nat) :=
  n.input.enum.findSome? (fun p =>
    match outputNameToNode l p.2 with
    | some parent =>
        if parent.op_type = opType ∧ parent ∉ exclude then some (parent, p.1)
        else none
    | none => none)

/-- `ONNXModel.match_parent node op_type input_index exclude`: with an index,
checks only that input's producer; with `none`, the first matching parent over
all inputs. -/
def matchParent (l : List NodeP) (n : NodeP) (opType : String)
    (inputIndex : Option Nat) (exclude : List NodeP) : Option NodeP :=
  match inputIndex with
  | none => (matchFirstParent l n opType exclude).map (·.1)
  | some idx =>
      if n.input.length ≤ idx then none
      else
        match getParent l n idx with
        | some parent =>
            if parent.op_type = opType ∧ parent ∉ exclude then some parent
            else none
        | none => none

/-- The backward walk of `ONNXModel.match_parent_path` once the length
assertion has passed: one hop per op-type, threading the matched parent. -/
def matchParentPathAux (l : List NodeP) : NodeP → List String →
    Option (List Nat) → Option (List NodeP)
  | _, [], _ => some []
  | n, op :: ops, idxs =>
      let idx := match idxs with
        | some is => is.head?
        | none => none
      match matchParent l n op idx [] with
      | none => none
      | some parent =>
          match matchParentPathAux l parent ops (idxs.map (·.tail)) with
          | none => none
          | some rest => some (parent :: rest)

/-- `ONNXModel.match_parent_path node op_types input_indices`: asserts the
constraint lists have equal length, then walks backward hop by hop and returns
all matched parents, or `None` on any single-step failure. -/
def matchParentPath (l : List NodeP) (n : NodeP) (opTypes : List String)
    (idxs : Option (List Nat)) : Except String (Option (List NodeP)) :=
  match idxs with
  | some is =>
      if is.length = opTypes.length then
        .ok (matchParentPathAux l n opTypes (some is))
      else .error "AssertionError"
  | none => .ok (matchParentPathAux l n opTypes none)

/-- `ONNXModel.match_parent_paths node paths`: tries each alternative pattern
in order and returns the index of the first success with its matched nodes
(`-1, None` when all fail). -/
def matchParentPaths (l : List NodeP) (n : NodeP)
    (paths : List (List String × Option (List Nat))) :
    Except String (Int × Option (List NodeP)) := do
  let rec go (i : Int) : List (List String × Option (List Nat)) →
      Except String (Int × Option (List NodeP))
    | [] => .ok (-1, none)
    | p :: ps => do
        match ← matchParentPath l n p.1 p.2 with
        | some matched =>
            -- Python tests `if matched:`; an empty list is falsy.
            if matched.isEmpty then go (i + 1) ps else .ok (i, some matched)
        | none => go (i + 1) ps
  go 0 paths

/-! ## Node addition with the DequantizeLinear zero-point check
(`ONNXModel.add_node` / `ONNXModel._check_node`) -/

/-- `ONNXModel._check_node`: for a `DequantizeLinear` node, resolves the
zero-point input to an initializer and raises when its data type is a
floating-point type (FLOAT16 = 10, FLOAT = 1, DOUBLE = 11, BFLOAT16 = 16).
Indexing `node.input[2]` raises when the node has fewer than three inputs, and
reading `.data_type` raises when the zero point is not an initializer. -/
def checkNode (g : Graph) (n : NodeP) : Except String NodeP :=
  if n.op_type = "DequantizeLinear" then do
    let zeroPoint ←
      match n.input[2]? with
      | some s => .ok s
      | none => .error "IndexError: list index out of range"
    let init ←
      match getInitializer g zeroPoint with
      | some t => .ok t
      | none => .error "AttributeError: NoneType has no attribute data_type"
    if init.data_type = 10 ∨ init.data_type = 1 ∨ init.data_type = 11 ∨
        init.data_type = 16 then
      .error "RuntimeError: Unsupported DequantizeLinear operator"
    else
      .ok n
  else
    .ok n

/-- `ONNXModel.add_node`: appends the node to the graph's node list after
`_check_node`. -/
def addNode (g : Graph) (n : NodeP) : Except String Graph := do
  let n ← checkNode g n
  .ok { g with node := g.node ++ [n] }

/-! ## Topological sort (`ONNXModel.topological_sort`)

The Python code keeps a per-node dependency counter (`deps_count`), a
registration map `deps_to_nodes` from each nonempty input name to the indices
of the nodes consuming it (one entry per occurrence, in node order), and the
growing `sorted_nodes` list.  Nodes with no nonempty input are appended first;
then the sorted, de-duplicated initializer/graph-input names are processed;
then a queue pass propagates readiness through the output names of already
sorted nodes.  A node is appended exactly when its counter reaches `0`. -/

/-- `sum(1 for _ in node.input if _)`: the number of nonempty inputs. -/
def depsOfNode (n : NodeP) : Nat := (n.input.filter (fun s => s ≠ "")).length

/-- `deps_to_nodes[t]`: indices of the nodes consuming `t`, one entry per
input occurrence, grouped by node in index order; empty names are never
registered. -/
def regs (l : List NodeP) (t : String) : List Nat :=
  if t = "" then []
  else (List.range l.length).flatMap
    (fun i => List.replicate ((getN l i).input.count t) i)

/-- The mutable state of the sort: the dependency counters and the list of
indices of the nodes appended to `sorted_nodes` so far. -/
structure SortSt where
  counts : Nat → Int
  order : List Nat

/-- One execution of `deps_count[node_idx] -= 1; if deps_count[node_idx] == 0:
sorted_nodes.append(...)`. -/
def decStep (st : SortSt) (i : Nat) : SortSt :=
  let v := st.counts i - 1
  { counts := fun j => if j = i then v else st.counts j,
    order := if v = 0 then st.order ++ [i] else st.order }

/-- Processing one satisfied name: decrement every registered consumer in
registration order. -/
def processName (l : List NodeP) (st : SortSt) (t : String) : SortSt :=
  (regs l t).foldl decStep st

/-- The seeding phase: counters start at the nonempty-input counts and the
zero-dependency nodes are appended in index order. -/
def phase1 (l : List NodeP) : SortSt :=
  { counts := fun i => (depsOfNode (getN l i) : Int),
    order := (List.range l.length).filter (fun i => depsOfNode (getN l i) = 0) }

/-- Insertion into a sorted name list (helper for `input_names.sort()`). -/
def insertSorted (x : String) : List String → List String
  | [] => [x]
  | y :: ys => if x ≤ y then x :: y :: ys else y :: insertSorted x ys

/-- Insertion sort over names.  String `≤` is a linear order, so the sorted
result is the unique `≤`-ordered permutation — exactly what Python's
`list.sort()` produces. -/
def sortNames : List String → List String
  | [] => []
  | x :: xs => insertSorted x (sortNames xs)

/-- The initializer/graph-input names, sorted with consecutive duplicates
skipped (`input_names.sort()` plus the `prev_input_name` check). -/
def sortedInitNames (g : Graph) : List String :=
  (sortNames (g.initializer.map (·.name) ++ g.input.map (·.name))).destutter (· ≠ ·)

/-- The queue phase: process `sorted_nodes[start]`'s output names in order,
appending newly ready nodes, until the cursor reaches the end of the list.
The loop runs at most once per appended node, so the fuel
`l.length + 1` it is started with is never exhausted. -/
def phase3 (l : List NodeP) : Nat → SortSt → Nat → SortSt
  | 0, st, _ => st
  | fuel + 1, st, start =>
      if start < st.order.length then
        let nd := getN l (st.order.getD start 0)
        phase3 l fuel (nd.output.foldl (processName l) st) (start + 1)
      else st

/-- `ONNXModel.topological_sort`: reorders the node list into dependency
order; fails (the `assert end == len(self.graph().node), "Graph is not a DAG"`)
when not all nodes were processed. -/
def topologicalSort (g : Graph) : Except String Graph :=
  let l := g.node
  let st := phase3 l (l.length + 1)
    ((sortedInitNames g).foldl (processName l) (phase1 l)) 0
  if st.order.length = l.length then
    .ok { g with node := st.order.map (getN l) }
  else
    .error "Graph is not a DAG"

/-! ## Fusion-pass state and spec-modelled collaborators

The fusion passes in `src/` import `fusion_base.Fusion`, `fusion_utils` and
the transformers `onnx_model.OnnxModel`, none of which are under `src/`.  The
members they use (`nodes_to_add`/`nodes_to_remove` accumulation,
`is_safe_to_fuse_nodes`, `create_node_name`, `transpose_2d_tensor`,
`scale_1d_tensor`, and the per-pass driver and committer) are modelled from
the spec below. -/

/-- Python list indexing `xs[i]`, raising `IndexError` when out of range. -/
def listIdx (xs : List α) (i : Nat) : Except String α :=
  match xs.get? i with
  | some x => .ok x
  | none => .error "IndexError: list index out of range"

/-- The per-invocation staged changes of a fusion pass
(`self.nodes_to_add` / `self.nodes_to_remove`). -/
structure Staged where
  nodes_to_add : List NodeP
  nodes_to_remove : List NodeP
  deriving DecidableEq, Repr

/-- No staged changes (the "no match" outcome). -/
def emptyStaged : Staged := ⟨[], []⟩

/-- Modelled from the spec: `is_safe_to_fuse_nodes` of the transformers
`OnnxModel` is not in `src/`.  Spec §4.1: verifies that no output of any
candidate node (other than the designated final outputs) is consumed by a
node outside the candidate set. -/
def isSafeToFuseNodes (l : List NodeP) (nodesToRemove : List NodeP)
    (keepOutputs : List String) : Bool :=
  nodesToRemove.all (fun n => n.output.all (fun o =>
    keepOutputs.contains o ||
      (inputNameToNodes l o).all (fun c => nodesToRemove.contains c)))

/-- Modelled from the spec: `create_node_name` of the transformers
`OnnxModel` is not in `src/`; it generates a fresh node name from the op-type
prefix and a counter; the counter is modelled by the current node count. -/
def createNodeName (g : Graph) (prefixStr : String) : String :=
  prefixStr ++ "_" ++ toString g.node.length

/-- Modelled from the spec: `transpose_2d_tensor` of the transformers
`OnnxModel` is not in `src/`.  Spec §4.3/§9: the QOrderedMatMul fusion
transposes the 2-D weight initializer payload from row- to column-major
order (`transposed(tensor) -> tensor`). -/
def transpose2dTensor (t : TensorP) : TensorP :=
  match t.dims with
  | [r, c] =>
      { t with
        dims := [c, r]
        data := (List.range c).flatMap (fun i =>
          (List.range r).map (fun j => t.data.getD (j * c + i) 0)) }
  | _ => t

/-- Modelled from the spec: `scale_1d_tensor` of the transformers `OnnxModel`
is not in `src/`.  Spec §4.3/§9: rescales the 1-D bias initializer payload by
the output scale (`scaled(tensor, factor) -> tensor`). -/
def scale1dTensor (t : TensorP) (scale : NDArray) : TensorP :=
  { t with data := t.data.map (fun x => ratMul x (scale.data.getD 0 0)) }

/-- `ONNXModel.replace_node_input`: renames every occurrence of an input name
on one node. -/
def replaceNodeInput (n : NodeP) (oldName newName : String) : NodeP :=
  { n with input := n.input.map (fun s => if s = oldName then newName else s) }

/-- In-place mutation of a node object held by the graph, modelled by value
replacement in the node list. -/
def replaceNodeValue (g : Graph) (oldN newN : NodeP) : Graph :=
  { g with node := g.node.map (fun x => if x = oldN then newN else x) }

/-- In-place mutation of an initializer object held by the graph, modelled by
value replacement in the initializer list. -/
def replaceInitializer (g : Graph) (oldT newT : TensorP) : Graph :=
  { g with initializer := g.initializer.map (fun x => if x = oldT then newT else x) }

/-- Modelled from the spec: the mutation committer (`fusion_base.Fusion.apply`
and the transformers `OnnxModel` removal/insertion helpers) is not in `src/`.
Spec §4.5: apply removals first, then additions; a removal deletes the first
value-equal node. -/
def commitStaged (g : Graph) (st : Staged) : Graph :=
  let afterRemove := st.nodes_to_remove.foldl (fun nodes n => nodes.erase n) g.node
  { g with node := afterRemove ++ st.nodes_to_add }

/-! ## FusionQuickGelu (transformers/fusion_quickgelu.py) -/

/-- `FusionQuickGelu.fuse`: starting from a candidate `MatMul` node, matches
`root → Mul(≈1.702) → Sigmoid → Mul → MatMul` with the root produced by an
`Add` or `MatMul`, requires the constant to equal `1.7021484375` exactly, and
stages one `com.microsoft::QuickGelu` node replacing the three matched nodes.
`get_constant_value(...).item()` raises `AttributeError` when the constant is
absent. -/
def quickGeluFuse (g : Graph) (node : NodeP) : Except String Staged := do
  let l := g.node
  let ms? ← matchParentPath l node ["Mul"] (some [0])
  let some ms := ms? | return emptyStaged
  let second_mul_node ← listIdx ms 0
  let root_input_1 ← matchParentPath l second_mul_node ["Add"] (some [0])
  let root_input_2 ← matchParentPath l second_mul_node ["MatMul"] (some [0])
  let root_input ←
    match root_input_1 with
    | some l1 => do
        let n ← listIdx l1 0
        pure (outN n 0)
    | none =>
        match root_input_2 with
        | some l2 => do
            let n ← listIdx l2 0
            pure (outN n 0)
        | none => return emptyStaged
  let sg? ← matchParentPath l second_mul_node ["Sigmoid"] (some [1])
  let some sg := sg? | return emptyStaged
  let sigmoid_node ← listIdx sg 0
  let fm? ← matchParentPath l sigmoid_node ["Mul"] (some [0])
  let some fm := fm? | return emptyStaged
  let first_mul_node ← listIdx fm 0
  let approximation_value ←
    match getConstantValue g (inN first_mul_node 1) with
    | some arr => arr.item
    | none => .error "AttributeError: NoneType object has no attribute item"
  if approximation_value ≠ quickGeluAlpha then return emptyStaged
  if inN first_mul_node 0 ≠ root_input then return emptyStaged
  let new_node : NodeP :=
    { op_type := "QuickGelu",
      name := createNodeName g "QuickGelu",
      input := [root_input],
      output := [outN second_mul_node 0],
      domain := "com.microsoft",
      «attribute» := [⟨"alpha", .f approximation_value⟩] }
  .ok { nodes_to_add := [new_node],
        nodes_to_remove := [first_mul_node, sigmoid_node, second_mul_node] }

/-- Modelled from the spec: the per-pass driver (`fusion_base.Fusion.apply`)
is not in `src/`.  Spec §4.3/§5: a pass invokes `fuse` once per candidate
node — the nodes whose op type is the search type, `MatMul` for
`FusionQuickGelu` — in node order, accumulating the staged changes. -/
def quickGeluApply (g : Graph) : Except String Staged :=
  (g.node.filter (fun n => n.op_type = "MatMul")).foldlM
    (fun acc n => do
      let st ← quickGeluFuse g n
      pure ⟨acc.nodes_to_add ++ st.nodes_to_add,
            acc.nodes_to_remove ++ st.nodes_to_remove⟩)
    emptyStaged

/-! ## FusionQOrderedMatMul (transformers/fusion_qordered_matmul.py) -/

/-- The repeated scale/zero-point validation of `FusionQOrderedMatMul.fuse`
(`x_scale = get_constant_value(n.input[1]); if x_scale is None: return;
x_zero_point = get_constant_value(n.input[2]); if x_zero_point is None or
x_zero_point != 0: return`): `true` when the scale is statically known and
the zero point is a known constant equal to zero. -/
def checkKnownScaleZp (g : Graph) (n : NodeP) : Except String Bool := do
  if getConstantValue g (inN n 1) = none then return false
  match getConstantValue g (inN n 2) with
  | none => return false
  | some zp => do
      let nz ← zp.neZero
      return !nz

/-- The residual-path lookup of `FusionQOrderedMatMul.fuse`: the upstream
`DequantizeLinear` feeding the residual `Add`, tried on input 1 then on
input 0; `none` when neither matches. -/
def qorderedResidualDQ (g : Graph) (ran : NodeP) : Except String (Option NodeP) := do
  let (rpid, rn?) ← matchParentPaths g.node ran [(["DequantizeLinear"], some [1])]
  if rpid < 0 then
    let (rpid2, rn2?) ← matchParentPaths g.node ran [(["DequantizeLinear"], some [0])]
    if rpid2 < 0 then return none
    let dq ← listIdx (rn2?.getD []) 0
    return some dq
  else
    let dq ← listIdx (rn?.getD []) 0
    return some dq

/-- Lines 22–76 of `FusionQOrderedMatMul.fuse`: the bias `Add` child of the
candidate MatMul (with the constant-side index), the optional residual `Add`,
the downstream `QuantizeLinear`, and the validation that the downstream scale
is statically known and the downstream zero point is a known zero.  `none`
is the silent "no match" abort. -/
def qorderedBiasAndDownstream (g : Graph) (node : NodeP) :
    Except String (Option (NodeP × Nat × Option NodeP × NodeP × NDArray)) := do
  let l := g.node
  let matmul_children := getChildren l node
  if matmul_children.length ≠ 1 ∨
      (matmul_children.headD defaultNode).op_type ≠ "Add" then return none
  let bias_add_node := matmul_children.headD defaultNode
  if getConstantValue g (inN bias_add_node 0) = none ∧
      getConstantValue g (inN bias_add_node 1) = none then return none
  let bias_add_node_index :=
    if getConstantValue g (inN bias_add_node 0) = none then 1 else 0
  let bias_add_children := getChildren l bias_add_node
  if bias_add_children.length ≠ 1 then return none
  let bias_add_child := bias_add_children.headD defaultNode
  -- residual Add / downstream QuantizeLinear analysis
  let step1 : Option (Option NodeP × NodeP) :=
    if bias_add_child.op_type = "Add" then
      let residual_add_children := getChildren l bias_add_child
      if residual_add_children.length = 1 ∧
          (residual_add_children.headD defaultNode).op_type = "QuantizeLinear" then
        some (some bias_add_child, residual_add_children.headD defaultNode)
      else none
    else if bias_add_child.op_type = "QuantizeLinear" then
      some (none, bias_add_child)
    else none
  let some (residual_add_node, downstream_quantize_node) := step1 | return none
  let some y_scale := getConstantValue g (inN downstream_quantize_node 1)
    | return none
  let some y_zero_point := getConstantValue g (inN downstream_quantize_node 2)
    | return none
  if ← y_zero_point.neZero then return none
  return some (bias_add_node, bias_add_node_index, residual_add_node,
    downstream_quantize_node, y_scale)

/-- Lines 78–115 of `FusionQOrderedMatMul.fuse`: the first MatMul input must
flow through a `DequantizeLinear` (directly, or through the
`Reshape ← Transpose ← DequantizeLinear ← QuantizeLinear` alternative), and
that `DequantizeLinear` must have a known scale and a known zero zero
point. -/
def qorderedFirstInputPath (g : Graph) (node : NodeP) :
    Except String (Option (Option NodeP × Option NodeP × NodeP)) := do
  let l := g.node
  let (first_path_id, first_nodes?) ←
    matchParentPaths l node [(["DequantizeLinear"], some [0])]
  let trip? ←
    if first_path_id < 0 then do
      let (fp2, fn2?) ← matchParentPaths l node
        [(["Reshape", "Transpose", "DequantizeLinear", "QuantizeLinear"],
          some [0, 0, 0, 0])]
      if fp2 < 0 then
        pure (none : Option (Option NodeP × Option NodeP × NodeP))
      else do
        let r ← listIdx (fn2?.getD []) 0
        let tr ← listIdx (fn2?.getD []) 1
        let dq ← listIdx (fn2?.getD []) 2
        pure (some (some r, some tr, dq))
    else do
      let dq ← listIdx (first_nodes?.getD []) 0
      pure (some (none, none, dq))
  match trip? with
  | none => return none
  | some (r, tr, dq0) =>
      if !(← checkKnownScaleZp g dq0) then return none
      return some (r, tr, dq0)

/-- Lines 117–141 of `FusionQOrderedMatMul.fuse`: the second MatMul input
must flow through a `DequantizeLinear` whose weight input is a constant and
whose scale / zero point pass the validation. -/
def qorderedSecondInputDQ (g : Graph) (node : NodeP) :
    Except String (Option NodeP) := do
  let (second_path_id, second_nodes?) ←
    matchParentPaths g.node node [(["DequantizeLinear"], some [1])]
  if second_path_id < 0 then return none
  let dequantize_node_1 ← listIdx (second_nodes?.getD []) 0
  if getConstantValue g (inN dequantize_node_1 0) = none then return none
  if !(← checkKnownScaleZp g dequantize_node_1) then return none
  return some dequantize_node_1

/-- Lines 143–168 of `FusionQOrderedMatMul.fuse`: the residual `Add` must be
fed by a `DequantizeLinear` (input 1 tried first, then input 0) with a known
scale and a known zero zero point. -/
def qorderedResidualPath (g : Graph) (ran : NodeP) :
    Except String (Option NodeP) := do
  let radq? ← qorderedResidualDQ g ran
  match radq? with
  | none => return none
  | some radq =>
      if !(← checkKnownScaleZp g radq) then return none
      return some radq

/-- `FusionQOrderedMatMul.fuse` (lines 21–228), composed from the staged
helpers above: starting from a candidate `MatMul`, matches the
`DequantizeLinear → MatMul → (bias) Add → [residual Add] → QuantizeLinear`
sandwich, validates the scales and zero points of the downstream
`QuantizeLinear`, the two `DequantizeLinear` producers of the MatMul inputs
and the residual `DequantizeLinear` when present, runs the
`is_safe_to_fuse_nodes` gate, then rewires the transpose (Reshape path),
transposes the weight initializer, rescales the bias initializer and stages
one `com.microsoft::QOrderedMatMul` node replacing the subgraph.  Returns the
(possibly mutated) graph together with the staged changes. -/
def qorderedMatMulFuse (g : Graph) (node : NodeP) : Except String (Graph × Staged) := do
  let l := g.node
  let empty : Graph × Staged := (g, emptyStaged)
  let some (bias_add_node, bias_add_node_index, residual_add_node,
      downstream_quantize_node, y_scale) ← qorderedBiasAndDownstream g node
    | return empty
  let some (reshape_node_0, transpose_node_0, dequantize_node_0) ←
    qorderedFirstInputPath g node | return empty
  let some dequantize_node_1 ← qorderedSecondInputDQ g node | return empty
  -- residual DequantizeLinear, when a residual Add is present
  let residual_add_dequantize_node? ←
    match residual_add_node with
    | none => pure (none : Option NodeP)
    | some ran => qorderedResidualPath g ran
  if residual_add_node.isSome ∧ residual_add_dequantize_node?.isNone then
    return empty
  -- subgraph to be fused and safety gate
  let subgraph_nodes :=
    [node, bias_add_node] ++
      (match residual_add_node with | some r => [r] | none => []) ++
      [dequantize_node_1, downstream_quantize_node]
  if !(isSafeToFuseNodes l subgraph_nodes downstream_quantize_node.output) then
    return empty
  -- rewire the Transpose input (Reshape path only)
  let g1 :=
    match transpose_node_0 with
    | some tn =>
        replaceNodeValue g tn
          (replaceNodeInput tn (inN tn 0) (inN dequantize_node_0 0))
    | none => g
  -- fused node inputs
  let fused_node_inputs :=
    [ (match reshape_node_0 with
       | some r => outN r 0
       | none => inN dequantize_node_0 0),
      inN dequantize_node_0 1,
      inN dequantize_node_1 0, inN dequantize_node_1 1,
      inN downstream_quantize_node 1,
      inN bias_add_node bias_add_node_index ] ++
    (match residual_add_dequantize_node? with
     | some radq => [inN radq 0, inN radq 1]
     | none => [])
  -- transpose the weight initializer and rescale the bias initializer
  let weight_tensor ←
    match getInitializer g1 (inN dequantize_node_1 0) with
    | some t => .ok t
    | none => .error "AttributeError: NoneType object has no attribute dims"
  let g2 := replaceInitializer g1 weight_tensor (transpose2dTensor weight_tensor)
  let bias_tensor ←
    match getInitializer g2 (inN bias_add_node bias_add_node_index) with
    | some t => .ok t
    | none => .error "AttributeError: NoneType object has no attribute data"
  let g3 := replaceInitializer g2 bias_tensor (scale1dTensor bias_tensor y_scale)
  let fused_node : NodeP :=
    { op_type := "QOrderedMatMul",
      name := createNodeName g "QOrderedMatMul",
      input := fused_node_inputs,
      output := [outN downstream_quantize_node 0],
      domain := "com.microsoft",
      «attribute» := [⟨"order_A", .i 1⟩, ⟨"order_B", .i 0⟩, ⟨"order_Y", .i 1⟩] }
  .ok (g3, { nodes_to_add := [fused_node], nodes_to_remove := subgraph_nodes })

/-! ## FusionTulrAttention.create_attention_node (transformers/onnx_model_tulr.py) -/

/-- `ONNXModel.add_initializer`: appends the tensor unless an initializer
with that name already exists. -/
def addInitializer (g : Graph) (t : TensorP) : Graph :=
  if (getInitializer g t.name).isSome then g
  else { g with initializer := g.initializer ++ [t] }

/-- `xs[start : start+len]` on a flat payload. -/
def slice (xs : List ℚ) (start len : Nat) : List ℚ := (xs.drop start).take len

/-- The flat payload shared by `np.concatenate((qw, kw, vw), axis=1)` and
`np.stack((qw, kw, vw), axis=1)` followed by `.flatten()`: for each leading
index, the three per-matrix blocks in order. -/
def packQKV (d0 blockQ blockK blockV : Nat) (qd kd vd : List ℚ) : List ℚ :=
  (List.range d0).flatMap (fun i =>
    slice qd (i * blockQ) blockQ ++ slice kd (i * blockK) blockK ++
      slice vd (i * blockV) blockV)

/-- Lines 119–125 and 147–152 of `create_attention_node`: the packed QKV
weight tensor (`attention_node_name + "_qkv_weight"`), concatenated along
axis 1 when the Q and V shapes differ and stacked when they are equal; the
combined output dimension is the sum of the three per-matrix output sizes in
the differing case and three times the Q output size otherwise.  The fp16
storage tag (data type 10) of the Q weight is preserved. -/
def qkvWeightTensor (attention_node_name : String)
    (q_weight k_weight v_weight : TensorP) : TensorP :=
  let qw := toArray q_weight
  let kw := toArray k_weight
  let vw := toArray v_weight
  let qw_in_size := qw.shape.headD 0
  let is_qkv_diff_dims := qw.shape ≠ vw.shape
  let qw_out_size := qw.shape.tail.prod
  let kw_out_size := kw.shape.tail.prod
  let vw_out_size := vw.shape.tail.prod
  let qkv_weight_dim :=
    if is_qkv_diff_dims then qw_out_size + kw_out_size + vw_out_size
    else 3 * qw_out_size
  { name := attention_node_name ++ "_qkv_weight",
    data_type := if q_weight.data_type = 10 then 10 else 1,
    dims := [qw_in_size, qkv_weight_dim],
    data :=
      packQKV qw_in_size qw_out_size kw_out_size vw_out_size
        qw.data kw.data vw.data }

/-- Lines 127–145 and 154–159 of `create_attention_node`: the packed QKV bias
tensor (`attention_node_name + "_qkv_bias"`); the K bias is replaced by
`np.zeros_like(qb)`. -/
def qkvBiasTensor (attention_node_name : String)
    (q_weight v_weight q_bias v_bias : TensorP) : TensorP :=
  let is_qkv_diff_dims := (toArray q_weight).shape ≠ (toArray v_weight).shape
  let qb := toArray q_bias
  let kb : List ℚ := List.replicate qb.data.length 0
  let vb := toArray v_bias
  let q_bias_shape := qb.shape.prod
  let v_bias_shape := vb.shape.prod
  let qkv_bias_dim :=
    if is_qkv_diff_dims then q_bias_shape + q_bias_shape + v_bias_shape
    else 3 * q_bias_shape
  { name := attention_node_name ++ "_qkv_bias",
    data_type := if q_bias.data_type = 10 then 10 else 1,
    dims := [qkv_bias_dim],
    data := qb.data ++ kb ++ vb.data }

/-- Lines 171–218 of `create_attention_node`: the emitted
`com.microsoft::Attention` node, with a `num_heads` attribute always, a
`qkv_hidden_sizes` attribute listing the three per-matrix output sizes
exactly when the Q and V weight shapes differ, and a `mask_filter_value`
attribute when configured. -/
def packedAttentionNode (attention_node_name : String)
    (mask_index : Option String) (q_weight k_weight v_weight : TensorP)
    (num_heads : Nat) (input output : String) (add_qk_str : Option String)
    (mask_filter_value : Option ℚ) : NodeP :=
  let is_qkv_diff_dims := (toArray q_weight).shape ≠ (toArray v_weight).shape
  let qw_out_size := (toArray q_weight).shape.tail.prod
  let kw_out_size := (toArray k_weight).shape.tail.prod
  let vw_out_size := (toArray v_weight).shape.tail.prod
  { op_type := "Attention",
    name := attention_node_name,
    input :=
      [input, attention_node_name ++ "_qkv_weight",
        attention_node_name ++ "_qkv_bias"] ++
      [(match mask_index with | some m => m | none => "")] ++
      (match add_qk_str with | some s => ["", s] | none => []),
    output := [output],
    domain := "com.microsoft",
    «attribute» :=
      [⟨"num_heads", .i num_heads⟩] ++
      (if is_qkv_diff_dims then
        [⟨"qkv_hidden_sizes", .ints [qw_out_size, kw_out_size, vw_out_size]⟩]
      else []) ++
      (match mask_filter_value with
       | some v => [⟨"mask_filter_value", .f v⟩]
       | none => []) }

/-- `FusionTulrAttention.create_attention_node`: packs the Q/K/V weight and
bias initializers into single tensors (concatenating when the Q and V weight
shapes differ, stacking when they are equal), preserves an fp16 storage tag,
and emits a `com.microsoft::Attention` node with a `num_heads` attribute and,
in the differing-shapes case, a `qkv_hidden_sizes` attribute.  The `assert`
statements of the Python code are `.error`; precondition failures return
`none` with the graph unchanged.  (`use_multi_head_attention` is the constant
`False` in the source, so only the `Attention` branch is modelled; the
numerical rounding of the external numpy float16 cast is not modelled — the
payload values are kept and the storage tag is set to fp16.) -/
def createAttentionNode (g : Graph) (mask_index : Option String)
    (q_matmul k_matmul v_matmul : NodeP) (q_add : NodeP) (_k_add : Option NodeP)
    (v_add : NodeP) (num_heads hidden_size : Nat) (input output : String)
    (add_qk_str : Option String) (mask_filter_value : Option ℚ) :
    Except String (Option NodeP × Graph) := do
  if ¬ (num_heads > 0) then .error "AssertionError: num_heads > 0"
  if hidden_size > 0 ∧ hidden_size % num_heads ≠ 0 then return (none, g)
  let q_weight? := getInitializer g (inN q_matmul 1)
  let k_weight? := getInitializer g (inN k_matmul 1)
  let v_weight? := getInitializer g (inN v_matmul 1)
  let q_bias? :=
    match getInitializer g (inN q_add 1) with
    | some t => some t
    | none => getInitializer g (inN q_add 0)
  let v_bias? :=
    match getInitializer g (inN v_add 1) with
    | some t => some t
    | none => getInitializer g (inN v_add 0)
  let some q_weight := q_weight? | return (none, g)
  let some k_weight := k_weight? | return (none, g)
  let some v_weight := v_weight? | return (none, g)
  let some q_bias := q_bias? | return (none, g)
  if (toArray q_weight).shape ≠ (toArray k_weight).shape then
    .error "AssertionError: qw.shape == kw.shape"
  if ¬ ((toArray q_weight).shape.headD 0 = (toArray k_weight).shape.headD 0 ∧
      (toArray k_weight).shape.headD 0 = (toArray v_weight).shape.headD 0) then
    .error "AssertionError: qw_in_size == kw_in_size == vw_in_size"
  -- `v_bias` is dereferenced (`NumpyHelper.to_array(v_bias)`) without a
  -- `None` check; a missing V bias raises.
  let v_bias ←
    match v_bias? with
    | some t => .ok t
    | none => .error "AttributeError: NoneType object has no attribute dims"
  if ¬ ((toArray q_bias).shape.prod = (toArray q_weight).shape.tail.prod) then
    .error "AssertionError: q_bias_shape == k_bias_shape == qw_out_size"
  if ¬ ((toArray v_bias).shape.prod = (toArray v_weight).shape.tail.prod) then
    .error "AssertionError: v_bias_shape == vw_out_size"
  let attention_node_name := createNodeName g "Attention"
  let g1 := addInitializer g (qkvWeightTensor attention_node_name q_weight k_weight v_weight)
  let g2 := addInitializer g1 (qkvBiasTensor attention_node_name q_weight v_weight q_bias v_bias)
  .ok (some (packedAttentionNode attention_node_name mask_index q_weight
    k_weight v_weight num_heads input output add_qk_str mask_filter_value), g2)

/-! ## Concrete graphs used to instantiate the theorems -/

/-- The scalar initializer feeding the inner Mul of the QuickGelu pattern. -/
def cstTensor (c : ℚ) : TensorP := ⟨"cst", 1, [], [c]⟩

/-- `Add(a1, a2) → x`, the root producer of the QuickGelu pattern. -/
def qgAdd : NodeP := { op_type := "Add", name := "A", input := ["a1", "a2"], output := ["x"] }

/-- `Mul(x, cst) → m1`, the inner multiply of the QuickGelu pattern. -/
def qgMul1 : NodeP := { op_type := "Mul", name := "M1", input := ["x", "cst"], output := ["m1"] }

/-- `Sigmoid(m1) → s`. -/
def qgSigmoid : NodeP := { op_type := "Sigmoid", name := "S", input := ["m1"], output := ["s"] }

/-- `Mul(x, s) → m2`, the outer multiply of the QuickGelu pattern. -/
def qgMul2 : NodeP := { op_type := "Mul", name := "M2", input := ["x", "s"], output := ["m2"] }

/-- `MatMul(m2, w) → y`, the candidate node the QuickGelu pass starts from. -/
def qgMatMul : NodeP := { op_type := "MatMul", name := "MM", input := ["m2", "w"], output := ["y"] }

/-- A graph holding the complete QuickGelu pattern, parametrised by the value
of the scalar constant. -/
def qgGraph (c : ℚ) : Graph :=
  { node := [qgAdd, qgMul1, qgSigmoid, qgMul2, qgMatMul]
    initializer := [cstTensor c]
    input := [⟨"a1"⟩, ⟨"a2"⟩, ⟨"w"⟩]
    output := [⟨"y"⟩] }

/-- The QuickGelu pattern with the scalar constant replaced by the plain
graph input `v` (no statically known constant). -/
def qgGraphNC : Graph :=
  { node := [qgAdd,
      { op_type := "Mul", name := "M1", input := ["x", "v"], output := ["m1"] },
      qgSigmoid, qgMul2, qgMatMul]
    initializer := []
    input := [⟨"a1"⟩, ⟨"a2"⟩, ⟨"v"⟩, ⟨"w"⟩]
    output := [⟨"y"⟩] }

/-- An extra consumer of the Sigmoid output, outside the QuickGelu
candidate subgraph. -/
def qgOutsideConsumer : NodeP :=
  { op_type := "Relu", name := "X", input := ["s"], output := ["r"] }

/-- The complete QuickGelu pattern (exact constant) plus an outside consumer
of the Sigmoid output. -/
def qgGraphShared : Graph :=
  { node := [qgAdd, qgMul1, qgSigmoid, qgMul2, qgMatMul, qgOutsideConsumer]
    initializer := [cstTensor quickGeluAlpha]
    input := [⟨"a1"⟩, ⟨"a2"⟩, ⟨"w"⟩]
    output := [⟨"y"⟩, ⟨"r"⟩] }

/-- The two-node chain `Mul(x, cst) → Sigmoid → Mul(x, ·) → MatMul` where the
shared operand `x` is a plain graph input (produced by no `Add`/`MatMul`
node). -/
def qgGraphRootless : Graph :=
  { node := [qgMul1, qgSigmoid, qgMul2, qgMatMul]
    initializer := [cstTensor quickGeluAlpha]
    input := [⟨"x"⟩, ⟨"w"⟩]
    output := [⟨"y"⟩] }

/-- Did a fusion attempt stage any replacement node? -/
def fuseStages (r : Except String Staged) : Bool :=
  match r with
  | .ok st => !st.nodes_to_add.isEmpty
  | .error _ => false

/-- Did a graph-mutating fusion attempt stage any replacement node? -/
def fuseStagesG (r : Except String (Graph × Staged)) : Bool :=
  match r with
  | .ok (_, st) => !st.nodes_to_add.isEmpty
  | .error _ => false

/-- Is the named tensor a statically known constant whose payload is the
single value `0` (what the QOrderedMatMul zero-point validation accepts)? -/
def zpKnownZero (g : Graph) (name : String) : Bool :=
  match getConstantValue g name with
  | some a => decide (a.data = [0])
  | none => false

/-- Is the named tensor a statically known constant (what the QOrderedMatMul
scale validation accepts)? -/
def scaleKnown (g : Graph) (name : String) : Bool :=
  (getConstantValue g name).isSome

/-! ### Concrete QOrderedMatMul graphs -/

/-- `DequantizeLinear(x, s0, z0) → dq0` feeding the MatMul's first input. -/
def qoDQ0 : NodeP := { op_type := "DequantizeLinear", name := "DQ0", input := ["x", "s0", "z0"], output := ["dq0"] }

/-- `DequantizeLinear(w, s1, z1) → dq1` feeding the MatMul's second input. -/
def qoDQ1 : NodeP := { op_type := "DequantizeLinear", name := "DQ1", input := ["w", "s1", "z1"], output := ["dq1"] }

/-- The candidate `MatMul(dq0, dq1) → mm`. -/
def qoMM : NodeP := { op_type := "MatMul", name := "MM", input := ["dq0", "dq1"], output := ["mm"] }

/-- The bias `Add(mm, b) → ad`. -/
def qoADD : NodeP := { op_type := "Add", name := "ADD", input := ["mm", "b"], output := ["ad"] }

/-- The downstream `QuantizeLinear(ad, ys, yz) → q`. -/
def qoQ : NodeP := { op_type := "QuantizeLinear", name := "Q", input := ["ad", "ys", "yz"], output := ["q"] }

/-- A graph on which the QOrderedMatMul fusion succeeds through the direct
`DequantizeLinear` path: all scales statically known, all zero points zero. -/
def qoG1 : Graph :=
  { node := [qoDQ0, qoDQ1, qoMM, qoADD, qoQ]
    initializer := [⟨"s0", 1, [], [mkRat 1 2]⟩, ⟨"z0", 3, [], [0]⟩,
      ⟨"w", 3, [2, 2], [1, 2, 3, 4]⟩, ⟨"s1", 1, [], [mkRat 1 4]⟩,
      ⟨"z1", 3, [], [0]⟩, ⟨"b", 1, [2], [10, 20]⟩,
      ⟨"ys", 1, [], [mkRat 1 4]⟩, ⟨"yz", 3, [], [0]⟩]
    input := [⟨"x"⟩]
    output := [⟨"q"⟩] }

/-- The graph `qoG1` after the fusion's initializer mutations: the weight `w`
transposed, the bias `b` rescaled by the output scale `1/4`. -/
def qoG1' : Graph :=
  { qoG1 with
    initializer := [⟨"s0", 1, [], [mkRat 1 2]⟩, ⟨"z0", 3, [], [0]⟩,
      ⟨"w", 3, [2, 2], [1, 3, 2, 4]⟩, ⟨"s1", 1, [], [mkRat 1 4]⟩,
      ⟨"z1", 3, [], [0]⟩, ⟨"b", 1, [2], [mkRat 5 2, 5]⟩,
      ⟨"ys", 1, [], [mkRat 1 4]⟩, ⟨"yz", 3, [], [0]⟩] }

/-- The fused node the QOrderedMatMul pass stages on `qoG1`. -/
def qoFused1 : NodeP :=
  { op_type := "QOrderedMatMul"
    name := "QOrderedMatMul_5"
    input := ["x", "s0", "w", "s1", "ys", "b"]
    output := ["q"]
    domain := "com.microsoft"
    «attribute» := [⟨"order_A", .i 1⟩, ⟨"order_B", .i 0⟩, ⟨"order_Y", .i 1⟩] }

/-- The staged changes of the QOrderedMatMul pass on `qoG1`. -/
def qoStaged1 : Staged := ⟨[qoFused1], [qoMM, qoADD, qoDQ1, qoQ]⟩

/-- The upstream `QuantizeLinear(xin, q0s, q0z) → q0` of the Reshape path:
its scale `q0s` is a plain graph input (not statically known) and its zero
point `q0z` is the nonzero initializer `5`. -/
def qoQ0 : NodeP := { op_type := "QuantizeLinear", name := "Q0", input := ["xin", "q0s", "q0z"], output := ["q0"] }

/-- `DequantizeLinear(q0, s0, z0) → dq0` of the Reshape path. -/
def qoDQ0b : NodeP := { op_type := "DequantizeLinear", name := "DQ0", input := ["q0", "s0", "z0"], output := ["dq0"] }

/-- `Transpose(dq0) → tr` of the Reshape path. -/
def qoTR : NodeP := { op_type := "Transpose", name := "TR", input := ["dq0"], output := ["tr"] }

/-- `Reshape(tr, shape) → rs` of the Reshape path. -/
def qoRS : NodeP := { op_type := "Reshape", name := "RS", input := ["tr", "shape"], output := ["rs"] }

/-- The candidate `MatMul(rs, dq1) → mm` of the Reshape path. -/
def qoMM2 : NodeP := { op_type := "MatMul", name := "MM", input := ["rs", "dq1"], output := ["mm"] }

/-- A graph on which the QOrderedMatMul fusion succeeds through the
Reshape/Transpose path even though the matched upstream `QuantizeLinear` has
an unknown scale and a nonzero zero point (the pass never validates it). -/
def qoG2 : Graph :=
  { node := [qoQ0, qoDQ0b, qoTR, qoRS, qoMM2, qoDQ1, qoADD, qoQ]
    initializer := [⟨"q0z", 3, [], [5]⟩, ⟨"s0", 1, [], [mkRat 1 2]⟩,
      ⟨"z0", 3, [], [0]⟩, ⟨"w", 3, [2, 2], [1, 2, 3, 4]⟩,
      ⟨"s1", 1, [], [mkRat 1 4]⟩, ⟨"z1", 3, [], [0]⟩, ⟨"b", 1, [2], [10, 20]⟩,
      ⟨"ys", 1, [], [mkRat 1 4]⟩, ⟨"yz", 3, [], [0]⟩]
    input := [⟨"xin"⟩, ⟨"q0s"⟩, ⟨"shape"⟩]
    output := [⟨"q"⟩] }

/-! ### C10 graphs -/

/-- A `DequantizeLinear` whose zero-point input `zp` is not an initializer. -/
def dqNodeNoInit : NodeP :=
  { op_type := "DequantizeLinear", name := "DQX", input := ["xq", "sx", "zp"], output := ["dqx"] }

/-- A graph with no initializers. -/
def emptyGraph : Graph := { node := [], initializer := [], input := [], output := [] }

/-- `true` iff the node is a `DequantizeLinear` on which `_check_node`
raises: the zero-point input is missing, does not resolve to an initializer,
or resolves to a float-typed initializer. -/
def dqZpBad (g : Graph) (n : NodeP) : Bool :=
  match n.input[2]? with
  | none => true
  | some zp =>
      match getInitializer g zp with
      | none => true
      | some init =>
          if init.data_type = 10 ∨ init.data_type = 1 ∨ init.data_type = 11 ∨
              init.data_type = 16 then true else false

/-- The all-or-nothing postcondition of `match_parent_path`: one matched node
per requested op type, each matched node has the requested type and produces
(through the output-name index) one of the previous node's inputs. -/
def chainOk (l : List NodeP) : NodeP → List NodeP → List String → Bool
  | _, [], [] => true
  | prev, p :: ps, op :: ops =>
      decide (p.op_type = op) &&
      (List.range prev.input.length).any
        (fun k => outputNameToNode l (prev.input.getD k "") == some p) &&
      chainOk l p ps ops
  | _, _, _ => false

/-- The replacement node the QuickGelu pass emits for a root input name and
an outer-Mul output name. -/
def quickGeluNewNode (g : Graph) (root m2out : String) : NodeP :=
  { op_type := "QuickGelu"
    name := createNodeName g "QuickGelu"
    input := [root]
    output := [m2out]
    domain := "com.microsoft"
    «attribute» := [⟨"alpha", .f quickGeluAlpha⟩] }

/-- Q weight initializer of the packing example: shape 2×2. -/
def c9qwT : TensorP := ⟨"qw", 1, [2, 2], [1, 2, 3, 4]⟩

/-- K weight initializer of the packing example: shape 2×2. -/
def c9kwT : TensorP := ⟨"kw", 1, [2, 2], [5, 6, 7, 8]⟩

/-- V weight initializer of the packing example: shape 2×3 (differing
output dimension, the padded/grouped-attention case). -/
def c9vwT : TensorP := ⟨"vw", 1, [2, 3], [9, 10, 11, 12, 13, 14]⟩

/-- Q bias initializer, size 2 = Q output size. -/
def c9qbT : TensorP := ⟨"qb", 1, [2], [1, 1]⟩

/-- V bias initializer, size 3 = V output size. -/
def c9vbT : TensorP := ⟨"vb", 1, [3], [2, 2, 2]⟩

/-- `MatMul(inp, qw) → q`. -/
def c9QMM : NodeP := { op_type := "MatMul", name := "QMM", input := ["inp", "qw"], output := ["q"] }

/-- `MatMul(inp, kw) → k`. -/
def c9KMM : NodeP := { op_type := "MatMul", name := "KMM", input := ["inp", "kw"], output := ["k"] }

/-- `MatMul(inp, vw) → v`. -/
def c9VMM : NodeP := { op_type := "MatMul", name := "VMM", input := ["inp", "vw"], output := ["v"] }

/-- `Add(q, qb) → qa`. -/
def c9QAdd : NodeP := { op_type := "Add", name := "QA", input := ["q", "qb"], output := ["qa"] }

/-- `Add(v, vb) → va`. -/
def c9VAdd : NodeP := { op_type := "Add", name := "VA", input := ["v", "vb"], output := ["va"] }

/-- The graph holding the packing example's initializers (no nodes, so the
generated attention node is named `Attention_0`). -/
def c9G : Graph := ⟨[], [c9qwT, c9kwT, c9vwT, c9qbT, c9vbT], [], []⟩

/-- The Attention node `create_attention_node` emits on the example. -/
def c9Node : NodeP :=
  packedAttentionNode "Attention_0" none c9qwT c9kwT c9vwT 1 "inp" "out" none none

/-- The graph `create_attention_node` returns on the example. -/
def c9Out2 : Graph :=
  addInitializer (addInitializer c9G (qkvWeightTensor "Attention_0" c9qwT c9kwT c9vwT))
    (qkvBiasTensor "Attention_0" c9qwT c9vwT c9qbT c9vbT)

/-- The names of the graph's initializers and declared inputs (the
`input_names` list of `topological_sort` before sorting). -/
def initInputNames (g : Graph) : List String :=
  g.initializer.map (·.name) ++ g.input.map (·.name)

/-- Ghost accounting for `topological_sort`: the total number of decrements
node `i` receives from processing the event list `E` (each processed nonempty
name `t` decrements `i` once per occurrence of `t` among `i`'s inputs). -/
def decTotal (l : List NodeP) (E : List String) (i : Nat) : Nat :=
  (E.map (fun t => if t = "" then 0 else (getN l i).input.count t)).sum

/-- Invariant of the sorter state: the emitted order is duplicate-free, its
members are real node indices and their counters are exhausted. -/
def sortOrderInv (l : List NodeP) (st : SortSt) : Prop :=
  st.order.Nodup ∧ ∀ i ∈ st.order, st.counts i ≤ 0 ∧ i < l.length

/-- Invariant tying a sorter state to the ghost event list `E`: every stuck
node's counter equals its dependency count minus its ledger total, and no
stuck node has been emitted. -/
def stuckInv (l : List NodeP) (S : List Nat) (st : SortSt) (E : List String) : Prop :=
  ∀ i ∈ S, st.counts i = (depsOfNode (getN l i) : Int) - (decTotal l E i : Int) ∧ i ∉ st.order

/-- Well-formedness of the ghost event list: nonempty names are pairwise
distinct and no stuck node's unsatisfiable input occurs. -/
def eventsOk (S : List Nat) (tfun : Nat → String) (E : List String) : Prop :=
  (E.filter (fun s => s ≠ "")).Nodup ∧ ∀ i ∈ S, tfun i ∉ E

/-- `Add(b, u) → a`: consumes the cycle name `b` and the duplicated name `u`. -/
def c4NodeA : NodeP := { op_type := "Add", name := "A", input := ["b", "u"], output := ["a"] }

/-- `Relu(a) → b`: the second node of the cycle. -/
def c4NodeB : NodeP := { op_type := "Relu", name := "B", input := ["a"], output := ["b"] }

/-- `Constant() → u`: first producer of the duplicated name `u`. -/
def c4NodeC : NodeP := { op_type := "Constant", name := "C", input := [], output := ["u"] }

/-- `Constant() → u`: second producer of the duplicated name `u`. -/
def c4NodeD : NodeP := { op_type := "Constant", name := "D", input := [], output := ["u"] }

/-- A graph with the cycle `A ↔ B` in which the side input `u` of `A` has two
producers, so `A`'s counter is decremented twice through `u`. -/
def dupProducerG : Graph := ⟨[c4NodeA, c4NodeB, c4NodeC, c4NodeD], [], [], []⟩

/-- The (non-topological) node order `topological_sort` emits on
`dupProducerG`. -/
def dupSortedG : Graph := ⟨[c4NodeC, c4NodeD, c4NodeA, c4NodeB], [], [], []⟩

/-- `Add(b) → a`: first node of the plain two-node cycle. -/
def cycleA : NodeP := { op_type := "Add", name := "A", input := ["b"], output := ["a"] }

/-- `Relu(a) → b`: second node of the plain two-node cycle. -/
def cycleB : NodeP := { op_type := "Relu", name := "B", input := ["a"], output := ["b"] }

/-- The plain two-node cyclic graph of the spec's example. -/
def twoCycleG : Graph := ⟨[cycleA, cycleB], [], [], []⟩

/-- `Mul(a, a) → y`: placed before its producer in the unsorted graph. -/
def c6NodeX : NodeP := { op_type := "Mul", name := "X", input := ["a", "a"], output := ["y"] }

/-- `Constant() → a`. -/
def c6NodeA : NodeP := { op_type := "Constant", name := "A", input := [], output := ["a"] }

/-- An unsorted two-node graph: the consumer precedes the producer. -/
def c6G : Graph := ⟨[c6NodeX, c6NodeA], [], [], []⟩

/-- The sorted result `topological_sort` produces on `c6G`. -/
def c6Sorted : Graph := ⟨[c6NodeA, c6NodeX], [], [], []⟩

/-- The constant written `1.7021484375` in `fusion_quickgelu.py` is the
rational `quickGeluAlpha`. -/
theorem quickGeluAlpha_eq : quickGeluAlpha = 1.7021484375 := by
  rw [quickGeluAlpha, Rat.mkRat_eq_div]
  norm_num

/-! ## Helper lemmas shared by the claim proofs -/

/-- `Except` bind on a success. -/
theorem ebind_ok (a : α) (f : α → Except ε β) : (Except.ok a >>= f) = f a := rfl

/-- `Except` bind on a raised exception. -/
theorem ebind_err (e : ε) (f : α → Except ε β) :
    ((Except.error e : Except ε α) >>= f) = .error e := rfl

/-! ### Pattern-matcher correctness -/

theorem matchFirstParent_some {l : List NodeP} {n : NodeP} {op : String}
    {ex : List NodeP} {p : NodeP} {i : Nat}
    (h : matchFirstParent l n op ex = some (p, i)) :
    p.op_type = op ∧ p ∉ ex ∧ ∃ k, k < n.input.length ∧
      outputNameToNode l (n.input.getD k "") = some p := by
  unfold matchFirstParent at h
  obtain ⟨a, ha, hfa⟩ := List.exists_of_findSome?_eq_some h
  obtain ⟨k, v⟩ := a
  rw [List.mk_mem_enum_iff_getElem?] at ha
  simp only at hfa
  split at hfa
  · split at hfa
    · rename_i parent hout hcond
      cases hfa
      have hk : i < n.input.length := (List.getElem?_eq_some.mp ha).1
      refine ⟨hcond.1, hcond.2, i, hk, ?_⟩
      have hv : n.input.getD i "" = v := by
        rw [List.getD_eq_getElem?_getD, ha]; rfl
      rw [hv, hout]
    · cases hfa
  · cases hfa

theorem matchParent_some {l : List NodeP} {n : NodeP} {op : String}
    {idx? : Option Nat} {ex : List NodeP} {p : NodeP}
    (h : matchParent l n op idx? ex = some p) :
    p.op_type = op ∧ p ∉ ex ∧ ∃ k, k < n.input.length ∧
      outputNameToNode l (n.input.getD k "") = some p := by
  cases idx? with
  | none =>
      simp only [matchParent] at h
      cases hm : matchFirstParent l n op ex with
      | none => rw [hm] at h; simp at h
      | some pi =>
          obtain ⟨p', i⟩ := pi
          rw [hm] at h
          simp only [Option.map_some'] at h
          cases h
          exact matchFirstParent_some hm
  | some idx =>
      simp only [matchParent] at h
      split at h
      · cases h
      · rename_i hle
        cases hp : getParent l n idx with
        | none => rw [hp] at h; simp at h
        | some parent =>
            rw [hp] at h
            simp only at h
            split at h
            · rename_i hcond
              cases h
              have hout : outputNameToNode l (n.input.getD idx "") = some p := by
                unfold getParent at hp
                rw [if_neg hle] at hp
                exact hp
              exact ⟨hcond.1, hcond.2, idx, Nat.lt_of_not_le hle, hout⟩
            · cases h

theorem matchParentPathAux_spec (l : List NodeP) :
    ∀ (ops : List String) (n : NodeP) (idxs : Option (List Nat)),
      matchParentPathAux l n ops idxs = none ∨
      ∃ ms, matchParentPathAux l n ops idxs = some ms ∧
        ms.length = ops.length ∧ chainOk l n ms ops = true := by
  intro ops
  induction ops with
  | nil =>
      intro n idxs
      right
      exact ⟨[], rfl, rfl, rfl⟩
  | cons op rest ih =>
      intro n idxs
      cases hm : matchParent l n op
          (match idxs with | some is => is.head? | none => none) [] with
      | none =>
          left
          simp only [matchParentPathAux, hm]
      | some parent =>
          rcases ih parent (idxs.map (·.tail)) with haux | ⟨ms, hms, hlen, hch⟩
          · left
            simp only [matchParentPathAux, hm, haux]
          · right
            refine ⟨parent :: ms, ?_, by simp [hlen], ?_⟩
            · simp only [matchParentPathAux, hm, hms]
            · obtain ⟨hop, -, k, hk, hout⟩ := matchParent_some hm
              unfold chainOk
              refine (Bool.and_eq_true _ _).mpr
                ⟨(Bool.and_eq_true _ _).mpr ⟨?_, ?_⟩, hch⟩
              · exact decide_eq_true hop
              · refine List.any_eq_true.mpr ⟨k, List.mem_range.mpr hk, ?_⟩
                rw [hout]
                exact beq_self_eq_true _

/-- C7: `match_parent_path` is all-or-nothing: with per-edge index constraints
of matching length (the length equality the source `assert`s), it returns
either `None` — never a partial list — or a list of exactly
`len(parent_op_types)` nodes in which the i-th node has the i-th requested op
type and produces an input of the previously matched node; a `None` index
constraint scans all inputs but still requires op-type equality. -/
theorem match_parent_path_all_or_nothing (l : List NodeP) (n : NodeP)
    (opTypes : List String) (idxs : Option (List Nat))
    (hlen : ∀ is, idxs = some is → is.length = opTypes.length) :
    matchParentPath l n opTypes idxs = .ok none ∨
    ∃ ms, matchParentPath l n opTypes idxs = .ok (some ms) ∧
      ms.length = opTypes.length ∧ chainOk l n ms opTypes = true := by
  cases idxs with
  | none =>
      simp only [matchParentPath]
      rcases matchParentPathAux_spec l opTypes n none with h | ⟨ms, hms, hl, hc⟩
      · left; rw [h]
      · right; exact ⟨ms, by rw [hms], hl, hc⟩
  | some is =>
      simp only [matchParentPath]
      rw [if_pos (hlen is rfl)]
      rcases matchParentPathAux_spec l opTypes n (some is) with h | ⟨ms, hms, hl, hc⟩
      · left; rw [h]
      · right; exact ⟨ms, by rw [hms], hl, hc⟩

/-- C7 (witness): the three-hop backward walk
`MatMul ← Mul ← Sigmoid ← Mul` on the complete QuickGelu graph. -/
theorem match_parent_path_all_or_nothing_witness :
    matchParentPath (qgGraph quickGeluAlpha).node qgMatMul
      ["Mul", "Sigmoid", "Mul"] (some [0, 1, 0]) = .ok none ∨
    ∃ ms, matchParentPath (qgGraph quickGeluAlpha).node qgMatMul
        ["Mul", "Sigmoid", "Mul"] (some [0, 1, 0]) = .ok (some ms) ∧
      ms.length = (["Mul", "Sigmoid", "Mul"] : List String).length ∧
      chainOk (qgGraph quickGeluAlpha).node qgMatMul ms
        ["Mul", "Sigmoid", "Mul"] = true :=
  match_parent_path_all_or_nothing (qgGraph quickGeluAlpha).node qgMatMul
    ["Mul", "Sigmoid", "Mul"] (some [0, 1, 0])
    (fun is h => by cases h; rfl)

/-! ### QuickGelu fusion characterisation -/

theorem matchParent_pos (l : List NodeP) (n : NodeP) (op : String) (idx : Nat)
    (p : NodeP) (hb : idx < n.input.length)
    (hp : outputNameToNode l (n.input.getD idx "") = some p)
    (hop : p.op_type = op) :
    matchParent l n op (some idx) [] = some p := by
  simp only [matchParent]
  rw [if_neg (Nat.not_le.mpr hb)]
  unfold getParent
  rw [if_neg (Nat.not_le.mpr hb), hp]
  simp [hop]

theorem matchParent_neg (l : List NodeP) (n : NodeP) (op : String) (idx : Nat)
    (p : NodeP) (hb : idx < n.input.length)
    (hp : outputNameToNode l (n.input.getD idx "") = some p)
    (hop : p.op_type ≠ op) :
    matchParent l n op (some idx) [] = none := by
  simp only [matchParent]
  rw [if_neg (Nat.not_le.mpr hb)]
  unfold getParent
  rw [if_neg (Nat.not_le.mpr hb), hp]
  simp [hop]

theorem matchParentPath_single (l : List NodeP) (n : NodeP) (op : String)
    (idx : Nat) (p : NodeP) (hb : idx < n.input.length)
    (hp : outputNameToNode l (n.input.getD idx "") = some p)
    (hop : p.op_type = op) :
    matchParentPath l n [op] (some [idx]) = .ok (some [p]) := by
  simp only [matchParentPath, List.length_singleton]
  rw [if_pos trivial]
  simp only [matchParentPathAux, List.head?, Option.map_some']
  rw [matchParent_pos l n op idx p hb hp hop]

theorem matchParentPath_single_none (l : List NodeP) (n : NodeP) (op : String)
    (idx : Nat) (p : NodeP) (hb : idx < n.input.length)
    (hp : outputNameToNode l (n.input.getD idx "") = some p)
    (hop : p.op_type ≠ op) :
    matchParentPath l n [op] (some [idx]) = .ok none := by
  simp only [matchParentPath, List.length_singleton]
  rw [if_pos trivial]
  simp only [matchParentPathAux, List.head?, Option.map_some']
  rw [matchParent_neg l n op idx p hb hp hop]

/-- C5 (amended): whenever the candidate `MatMul`'s input 0 is produced by
the chain `Mul(x, 1.7021484375) → Sigmoid → Mul(x, ·)` — Sigmoid at input 1
of the outer Mul — and the shared operand `x` is the first output of an
`Add` or `MatMul` producer node, the pass stages exactly one replacement
node: a `com.microsoft::QuickGelu` with single input `x`, single output the
outer Mul's output and an `alpha` attribute of `1.7021484375`, and stages
exactly the three original chain nodes for removal. -/
theorem quickgelu_fusion_emits_quickgelu_node
    (g : Graph) (mm m2 sig m1 rootNode : NodeP)
    (hmm : 0 < mm.input.length)
    (h1 : outputNameToNode g.node (inN mm 0) = some m2)
    (h2 : m2.op_type = "Mul")
    (hm2a : 0 < m2.input.length) (hm2b : 1 < m2.input.length)
    (h3 : outputNameToNode g.node (inN m2 0) = some rootNode)
    (h4 : rootNode.op_type = "Add" ∨ rootNode.op_type = "MatMul")
    (h5 : outputNameToNode g.node (inN m2 1) = some sig)
    (h6 : sig.op_type = "Sigmoid")
    (hsg : 0 < sig.input.length)
    (h7 : outputNameToNode g.node (inN sig 0) = some m1)
    (h8 : m1.op_type = "Mul")
    (harr : getConstantValue g (inN m1 1) = some ⟨[], [quickGeluAlpha]⟩)
    (hroot : inN m1 0 = outN rootNode 0) :
    quickGeluFuse g mm = .ok
      ⟨[quickGeluNewNode g (outN rootNode 0) (outN m2 0)], [m1, sig, m2]⟩ := by
  have s1 : matchParentPath g.node mm ["Mul"] (some [0]) = .ok (some [m2]) :=
    matchParentPath_single _ _ _ _ _ hmm h1 h2
  have s3 : matchParentPath g.node m2 ["Sigmoid"] (some [1]) = .ok (some [sig]) :=
    matchParentPath_single _ _ _ _ _ hm2b h5 h6
  have s4 : matchParentPath g.node sig ["Mul"] (some [0]) = .ok (some [m1]) :=
    matchParentPath_single _ _ _ _ _ hsg h7 h8
  rcases h4 with hA | hM
  · have s2 : matchParentPath g.node m2 ["Add"] (some [0]) = .ok (some [rootNode]) :=
      matchParentPath_single _ _ _ _ _ hm2a h3 hA
    have s2b : matchParentPath g.node m2 ["MatMul"] (some [0]) = .ok none :=
      matchParentPath_single_none _ _ _ _ _ hm2a h3 (by rw [hA]; decide)
    simp only [quickGeluFuse, quickGeluNewNode, s1, s2, s2b, s3, s4, bind, Except.bind, pure,
      Except.pure, listIdx, List.get?, harr, NDArray.item, hroot]
    simp
  · have s2 : matchParentPath g.node m2 ["Add"] (some [0]) = .ok none :=
      matchParentPath_single_none _ _ _ _ _ hm2a h3 (by rw [hM]; decide)
    have s2b : matchParentPath g.node m2 ["MatMul"] (some [0]) = .ok (some [rootNode]) :=
      matchParentPath_single _ _ _ _ _ hm2a h3 hM
    simp only [quickGeluFuse, quickGeluNewNode, s1, s2, s2b, s3, s4, bind, Except.bind, pure,
      Except.pure, listIdx, List.get?, harr, NDArray.item, hroot]
    simp

/-- C5 (witness): the fusion on the concrete complete pattern `qgGraph`. -/
theorem quickgelu_fusion_emits_quickgelu_node_witness :
    quickGeluFuse (qgGraph quickGeluAlpha) qgMatMul = .ok
      ⟨[quickGeluNewNode (qgGraph quickGeluAlpha) (outN qgAdd 0) (outN qgMul2 0)],
        [qgMul1, qgSigmoid, qgMul2]⟩ :=
  quickgelu_fusion_emits_quickgelu_node (qgGraph quickGeluAlpha) qgMatMul
    qgMul2 qgSigmoid qgMul1 qgAdd (by decide) (by decide) (by decide)
    (by decide) (by decide) (by decide) (by decide) (by decide) (by decide)
    (by decide) (by decide) (by decide) (by decide) (by decide)

/-- C2 (amended): the QuickGelu pass compares the scalar constant with exact
equality, not a tolerance: whenever it stages a fusion, the constant feeding
the inner Mul — the second input of the first staged-for-removal node —
evaluates to exactly `1.7021484375`; and the constant `1.5` (outside any
tolerance) produces zero changes. -/
theorem quickgelu_accepts_only_exact_constant :
    (∀ (g : Graph) (n : NodeP) (st : Staged),
        quickGeluFuse g n = .ok st → st.nodes_to_add ≠ [] →
        ∃ m1 rest arr, st.nodes_to_remove = m1 :: rest ∧
          getConstantValue g (inN m1 1) = some arr ∧
          arr.item = .ok quickGeluAlpha) ∧
    quickGeluFuse (qgGraph (mkRat 3 2)) qgMatMul = .ok emptyStaged := by
  constructor
  · intro g n st h hne
    unfold quickGeluFuse at h
    simp only [bind, Except.bind, pure, Except.pure] at h
    repeat'
      first
      | exact Except.noConfusion h
      | (cases h; exact absurd rfl hne)
      | split at h
    all_goals
      cases h
      refine ⟨_, _, _, rfl, ‹getConstantValue _ (inN _ 1) = some _›, ?_⟩
      rw [← not_ne_iff.mp ‹¬ _ ≠ quickGeluAlpha›]
      assumption
  · decide

/-- C2 (witness): on the exact-constant graph the pass stages a fusion, and
the universal half applies to it. -/
theorem quickgelu_accepts_only_exact_constant_witness :
    ∃ m1 rest arr,
      (⟨[quickGeluNewNode (qgGraph quickGeluAlpha) "x" "m2"],
          [qgMul1, qgSigmoid, qgMul2]⟩ : Staged).nodes_to_remove = m1 :: rest ∧
      getConstantValue (qgGraph quickGeluAlpha) (inN m1 1) = some arr ∧
      arr.item = .ok quickGeluAlpha :=
  quickgelu_accepts_only_exact_constant.1 (qgGraph quickGeluAlpha) qgMatMul
    ⟨[quickGeluNewNode (qgGraph quickGeluAlpha) "x" "m2"],
      [qgMul1, qgSigmoid, qgMul2]⟩ (by decide) (by decide)

/-! ## Claim theorems -/

/-- C1 (counterexample): on `qgGraphShared` the inner Sigmoid's output is
also consumed by the outside `Relu` node, so the fusion is unsafe
(`isSafeToFuseNodes` is `false` for the staged removal set), yet
`FusionQuickGelu.fuse` — which never runs the safety gate — still stages the
fusion, and committing the staged changes alters the graph's node list. -/
theorem quickgelu_fuses_despite_outside_consumer :
    quickGeluFuse qgGraphShared qgMatMul =
      .ok { nodes_to_add := [{ op_type := "QuickGelu"
                               name := "QuickGelu_6"
                               input := ["x"]
                               output := ["m2"]
                               domain := "com.microsoft"
                               «attribute» := [⟨"alpha", .f quickGeluAlpha⟩] }]
            nodes_to_remove := [qgMul1, qgSigmoid, qgMul2] } ∧
    isSafeToFuseNodes qgGraphShared.node [qgMul1, qgSigmoid, qgMul2]
      [outN qgMul2 0] = false ∧
    commitStaged qgGraphShared
      ⟨[{ op_type := "QuickGelu"
          name := "QuickGelu_6"
          input := ["x"]
          output := ["m2"]
          domain := "com.microsoft"
          «attribute» := [⟨"alpha", .f quickGeluAlpha⟩] }],
        [qgMul1, qgSigmoid, qgMul2]⟩ ≠ qgGraphShared := by
  refine ⟨by decide, by decide, by decide⟩

/-- C2 (counterexample): the scalar constant `1.702` is numerically as close
to the reference value 1.702 as possible — the tolerance-based
`has_constant_input` of the source accepts it with the default `1e-6`
delta — yet the QuickGelu pass, which compares for exact equality with
`1.7021484375`, stages no changes. -/
theorem quickgelu_rejects_value_within_tolerance :
    hasConstantInput (qgGraph (mkRat 1702 1000)) qgMul1 (mkRat 1702 1000) = true ∧
    quickGeluFuse (qgGraph (mkRat 1702 1000)) qgMatMul = .ok emptyStaged := by
  refine ⟨by decide, by decide⟩

/-- C3 (code bug): on `qgGraphNC` the inner Mul's second operand is the plain
graph input `v`, so the required constant is absent
(`get_constant_value` returns `None`); `FusionQuickGelu.fuse` then calls
`.item()` on `None` and raises `AttributeError` instead of returning
normally. -/
theorem quickgelu_raises_on_missing_constant :
    getConstantValue qgGraphNC "v" = none ∧
    quickGeluFuse qgGraphNC qgMatMul =
      .error "AttributeError: NoneType object has no attribute item" := by
  refine ⟨by decide, by decide⟩

/-- C5 (counterexample): `qgGraphRootless` contains the complete chain
`Mul(x, 1.7021484375) → Sigmoid → Mul(x, sigmoid_out)` feeding a `MatMul`,
but the shared operand `x` is a plain graph input; the pass additionally
requires `x` to be produced by an `Add` or `MatMul` node, so it emits no
`QuickGelu` node at all. -/
theorem quickgelu_no_fusion_when_root_is_graph_input :
    qgMul1 ∈ qgGraphRootless.node ∧ qgSigmoid ∈ qgGraphRootless.node ∧
    qgMul2 ∈ qgGraphRootless.node ∧
    getConstantValue qgGraphRootless (inN qgMul1 1) =
      some ⟨[], [quickGeluAlpha]⟩ ∧
    inN qgMul1 0 = "x" ∧ inN qgMul2 0 = "x" ∧
    outputNameToNode qgGraphRootless.node (inN qgSigmoid 0) = some qgMul1 ∧
    outputNameToNode qgGraphRootless.node (inN qgMul2 1) = some qgSigmoid ∧
    quickGeluApply qgGraphRootless = .ok emptyStaged := by
  refine ⟨by decide, by decide, by decide, by decide, by decide, by decide,
    by decide, by decide, by decide⟩

/-- C8 (counterexample): on `qoG2` the matched Reshape-path sandwich contains
the upstream `QuantizeLinear` `qoQ0` whose scale is not statically known and
whose zero point is the nonzero constant `5`; the fusion pass never validates
that node and stages the `QOrderedMatMul` replacement anyway. -/
theorem qordered_matmul_fuses_with_unvalidated_quantize :
    outputNameToNode qoG2.node (inN qoDQ0b 0) = some qoQ0 ∧
    qoQ0.op_type = "QuantizeLinear" ∧
    scaleKnown qoG2 (inN qoQ0 1) = false ∧
    zpKnownZero qoG2 (inN qoQ0 2) = false ∧
    getConstantValue qoG2 (inN qoQ0 2) = some ⟨[], [5]⟩ ∧
    fuseStagesG (qorderedMatMulFuse qoG2 qoMM2) = true := by
  refine ⟨by decide, by decide, by decide, by decide, by decide, by decide⟩

/-- C10 (counterexample): `dqNodeNoInit` is a `DequantizeLinear` whose
zero-point input `zp` does not resolve to any initializer; the claim predicts
`add_node` appends it, but `_check_node` dereferences the missing initializer
and raises. -/
theorem add_node_raises_on_nonconstant_zero_point :
    dqNodeNoInit.op_type = "DequantizeLinear" ∧
    getInitializer emptyGraph "zp" = none ∧
    addNode emptyGraph dqNodeNoInit =
      .error "AttributeError: NoneType has no attribute data_type" := by
  refine ⟨by decide, by decide, by decide⟩

/-- C10 (amended): `add_node` appends the node unchanged unless the node is a
`DequantizeLinear` whose zero-point input is missing, does not resolve to an
initializer, or resolves to a float-typed initializer (FLOAT16, FLOAT,
DOUBLE, BFLOAT16) — in exactly those cases it raises. -/
theorem add_node_check_behaviour (g : Graph) (n : NodeP) :
    (¬ (n.op_type = "DequantizeLinear" ∧ dqZpBad g n = true) ∧
        addNode g n = .ok { g with node := g.node ++ [n] }) ∨
    ((n.op_type = "DequantizeLinear" ∧ dqZpBad g n = true) ∧
        ∃ e, addNode g n = .error e) := by
  by_cases hop : n.op_type = "DequantizeLinear"
  · cases hin : n.input[2]? with
    | none =>
        right
        refine ⟨⟨hop, ?_⟩, ⟨"IndexError: list index out of range", ?_⟩⟩
        · simp [dqZpBad, hin]
        · simp [addNode, checkNode, hop, hin, ebind_ok, ebind_err]
    | some zp =>
        cases hinit : getInitializer g zp with
        | none =>
            right
            refine ⟨⟨hop, ?_⟩,
              ⟨"AttributeError: NoneType has no attribute data_type", ?_⟩⟩
            · simp [dqZpBad, hin, hinit]
            · simp [addNode, checkNode, hop, hin, hinit, ebind_ok, ebind_err]
        | some init =>
            by_cases hdt : init.data_type = 10 ∨ init.data_type = 1 ∨
                init.data_type = 11 ∨ init.data_type = 16
            · right
              refine ⟨⟨hop, ?_⟩,
                ⟨"RuntimeError: Unsupported DequantizeLinear operator", ?_⟩⟩
              · simp [dqZpBad, hin, hinit, hdt]
              · simp [addNode, checkNode, hop, hin, hinit, hdt, ebind_ok, ebind_err]
            · left
              refine ⟨?_, ?_⟩
              · rintro ⟨-, hbad⟩
                simp [dqZpBad, hin, hinit, hdt] at hbad
              · simp [addNode, checkNode, hop, hin, hinit, hdt, ebind_ok, ebind_err]
  · left
    refine ⟨?_, ?_⟩
    · rintro ⟨h, -⟩; exact hop h
    · simp [addNode, checkNode, hop, ebind_ok, ebind_err]

/-! ### QOrderedMatMul validation and safety-gate theorems -/
/-- A false `arr != 0` truthiness means the payload is the single value 0. -/
theorem neZero_false {a : NDArray} {nz : Bool} (h1 : a.neZero = .ok nz)
    (h2 : ¬ (nz = true)) : a.data = [0] := by
  unfold NDArray.neZero at h1
  split at h1
  · rename_i x heq
    cases h1
    rw [heq]
    rw [Bool.not_eq_true] at h2
    have : x = 0 := by
      by_contra hx
      rw [decide_eq_true hx] at h2
      cases h2
    rw [this]
  · exact Except.noConfusion h1

/-- A resolved constant is a known scale. -/
theorem scaleKnown_of_eq {g : Graph} {name : String} {a : NDArray}
    (h : getConstantValue g name = some a) : scaleKnown g name = true := by
  simp [scaleKnown, h]

/-- A constant lookup that did not fail is a known scale. -/
theorem scaleKnown_of_ne_none {g : Graph} {name : String}
    (h : ¬ (getConstantValue g name = none)) : scaleKnown g name = true := by
  simp [scaleKnown, Option.ne_none_iff_isSome.mp h]

/-- A resolved constant whose `!= 0` truthiness is false is a known zero
zero point. -/
theorem zpKnownZero_of {g : Graph} {name : String} {a : NDArray} {nz : Bool}
    (h1 : getConstantValue g name = some a) (h2 : a.neZero = .ok nz)
    (h3 : ¬ (nz = true)) : zpKnownZero g name = true := by
  simp [zpKnownZero, h1, neZero_false h2 h3]

/-- A passed scale/zero-point validation yields a known scale and a known
zero zero point. -/
theorem checkKnownScaleZp_true {g : Graph} {n : NodeP}
    (h : checkKnownScaleZp g n = .ok true) :
    scaleKnown g (inN n 1) = true ∧ zpKnownZero g (inN n 2) = true := by
  unfold checkKnownScaleZp at h
  simp only [bind, Except.bind, pure, Except.pure] at h
  split at h
  · simp at h
  · rename_i hsc
    split at h
    · simp at h
    · rename_i a hzp
      split at h
      · exact Except.noConfusion h
      · rename_i nz hnz
        injection h with hb
        have hnzf : nz = false := by simpa using hb
        constructor
        · exact scaleKnown_of_ne_none hsc
        · exact zpKnownZero_of hzp hnz (by simp [hnzf])

set_option maxHeartbeats 2000000 in
/-- C1 (amended): `FusionQOrderedMatMul.fuse` stages changes only after the
`is_safe_to_fuse_nodes` gate passed: whenever the fuse returns a non-empty
staged set, the removal set is safe with respect to the kept outputs of the
downstream `QuantizeLinear` (the last staged-for-removal node).
`FusionQuickGelu.fuse` has no such gate (see the counterexample). -/
theorem qordered_matmul_fuse_safety_gate (g : Graph) (n : NodeP)
    (g' : Graph) (st : Staged)
    (h : qorderedMatMulFuse g n = .ok (g', st)) (hne : st.nodes_to_add ≠ []) :
    isSafeToFuseNodes g.node st.nodes_to_remove
      ((st.nodes_to_remove.getLast?.getD defaultNode).output) = true := by
  unfold qorderedMatMulFuse at h
  simp only [bind, Except.bind, pure, Except.pure] at h
  repeat'
    first
    | exact Except.noConfusion h
    | (cases h; exact absurd rfl hne)
    | split at h
  all_goals
    cases h
    simpa using ‹¬ (!isSafeToFuseNodes _ _ _) = true›

/-- The Bool form of a passed scale/zero-point validation. -/
theorem checkKnownScaleZp_ok {g : Graph} {n : NodeP} {b : Bool}
    (h1 : checkKnownScaleZp g n = .ok b) (h2 : ¬ ((!b) = true)) :
    scaleKnown g (inN n 1) = true ∧ zpKnownZero g (inN n 2) = true := by
  have hb : b = true := by simpa using h2
  subst hb
  exact checkKnownScaleZp_true h1

/-- A successful second-input match implies constant weight and validated
scale / zero point on that `DequantizeLinear`. -/
theorem qorderedSecondInputDQ_valid {g : Graph} {node dq1 : NodeP}
    (h : qorderedSecondInputDQ g node = .ok (some dq1)) :
    (getConstantValue g (inN dq1 0)).isSome = true ∧
    scaleKnown g (inN dq1 1) = true ∧ zpKnownZero g (inN dq1 2) = true := by
  unfold qorderedSecondInputDQ at h
  simp only [bind, Except.bind, pure, Except.pure] at h
  repeat'
    first
    | exact Except.noConfusion h
    | exact Option.noConfusion (Except.ok.inj h)
    | split at h
  injection h with h
  injection h with h
  subst h
  refine ⟨?_, (checkKnownScaleZp_ok ‹_› ‹_›).1, (checkKnownScaleZp_ok ‹_› ‹_›).2⟩
  simpa using Option.ne_none_iff_isSome.mp ‹¬ getConstantValue g _ = none›

/-- A successful bias/downstream match implies validated scale / zero point
on the downstream `QuantizeLinear`. -/
theorem qorderedBiasAndDownstream_valid {g : Graph} {node b : NodeP} {i : Nat}
    {res : Option NodeP} {q : NodeP} {ys : NDArray}
    (h : qorderedBiasAndDownstream g node = .ok (some (b, i, res, q, ys))) :
    scaleKnown g (inN q 1) = true ∧ zpKnownZero g (inN q 2) = true := by
  unfold qorderedBiasAndDownstream at h
  simp only [bind, Except.bind, pure, Except.pure] at h
  repeat'
    first
    | exact Except.noConfusion h
    | exact Option.noConfusion (Except.ok.inj h)
    | split at h
  all_goals
    injection h with h
    injection h with h
    cases h
    exact ⟨scaleKnown_of_eq ‹_›, zpKnownZero_of ‹_› ‹_› ‹_›⟩

/-- A successful first-input match implies validated scale / zero point on
the matched `DequantizeLinear` (both the direct path and the
Reshape–Transpose path). -/
theorem qorderedFirstInputPath_valid {g : Graph} {node : NodeP}
    {r tr : Option NodeP} {dq0 : NodeP}
    (h : qorderedFirstInputPath g node = .ok (some (r, tr, dq0))) :
    scaleKnown g (inN dq0 1) = true ∧ zpKnownZero g (inN dq0 2) = true := by
  unfold qorderedFirstInputPath at h
  simp only [bind, Except.bind, pure, Except.pure] at h
  repeat'
    first
    | exact Except.noConfusion h
    | exact Option.noConfusion (Except.ok.inj h)
    | split at h
  all_goals
    injection h with h
    injection h with h
    cases h
    exact ⟨(checkKnownScaleZp_ok ‹_› ‹_›).1, (checkKnownScaleZp_ok ‹_› ‹_›).2⟩

/-- A successful residual-path match implies the residual `DequantizeLinear`
was found by the residual lookup and its scale / zero point validated. -/
theorem qorderedResidualPath_valid {g : Graph} {ran radq : NodeP}
    (h : qorderedResidualPath g ran = .ok (some radq)) :
    qorderedResidualDQ g ran = .ok (some radq) ∧
    scaleKnown g (inN radq 1) = true ∧ zpKnownZero g (inN radq 2) = true := by
  unfold qorderedResidualPath at h
  simp only [bind, Except.bind, pure, Except.pure] at h
  repeat'
    first
    | exact Except.noConfusion h
    | exact Option.noConfusion (Except.ok.inj h)
    | split at h
  all_goals
    injection h with h
    injection h with h
    cases h
    exact ⟨‹_›, (checkKnownScaleZp_ok ‹_› ‹_›).1, (checkKnownScaleZp_ok ‹_› ‹_›).2⟩

/-- The existential form of a successful residual-path match. -/
theorem qorderedResidualPath_exists {g : Graph} {ran radq : NodeP}
    (h : qorderedResidualPath g ran = .ok (some radq)) :
    ∃ x, qorderedResidualDQ g ran = .ok (some x) ∧
      scaleKnown g (inN x 1) = true ∧ zpKnownZero g (inN x 2) = true :=
  ⟨radq, (qorderedResidualPath_valid h).1, (qorderedResidualPath_valid h).2.1,
    (qorderedResidualPath_valid h).2.2⟩

set_option maxHeartbeats 2000000 in
/-- C8 (amended): whenever `FusionQOrderedMatMul.fuse` stages a replacement,
the downstream `QuantizeLinear` (the last staged-for-removal node) and the
weight-side `DequantizeLinear` (the node staged before it) have statically
known scales and zero points that are known constants equal to zero, the
weight is a known constant, the `DequantizeLinear` matched for the first
MatMul input (directly or through the Reshape–Transpose alternative) is
validated the same way, and when a residual `Add` was matched (a five-node
removal set, the residual `Add` staged third) its feeding `DequantizeLinear`
is validated too; the upstream `QuantizeLinear` matched in the
Reshape–Transpose path is not validated (see the counterexample). -/
theorem qordered_matmul_validates_checked_nodes (g : Graph) (n : NodeP)
    (g' : Graph) (st : Staged)
    (h : qorderedMatMulFuse g n = .ok (g', st)) (hne : st.nodes_to_add ≠ []) :
    (∃ dq1 q,
      st.nodes_to_remove.getLast? = some q ∧
      st.nodes_to_remove.getD (st.nodes_to_remove.length - 2) defaultNode = dq1 ∧
      scaleKnown g (inN q 1) = true ∧ zpKnownZero g (inN q 2) = true ∧
      (getConstantValue g (inN dq1 0)).isSome = true ∧
      scaleKnown g (inN dq1 1) = true ∧ zpKnownZero g (inN dq1 2) = true) ∧
    (∃ r tr dq0, qorderedFirstInputPath g n = .ok (some (r, tr, dq0)) ∧
      scaleKnown g (inN dq0 1) = true ∧ zpKnownZero g (inN dq0 2) = true) ∧
    (st.nodes_to_remove.length = 5 →
      ∃ radq,
        qorderedResidualDQ g (st.nodes_to_remove.getD 2 defaultNode)
          = .ok (some radq) ∧
        scaleKnown g (inN radq 1) = true ∧ zpKnownZero g (inN radq 2) = true) := by
  unfold qorderedMatMulFuse at h
  simp only [bind, Except.bind, pure, Except.pure] at h
  repeat'
    first
    | exact Except.noConfusion h
    | (cases h; exact absurd rfl hne)
    | split at h
  all_goals cases h
  all_goals
    refine ⟨⟨_, _, rfl, rfl,
      (qorderedBiasAndDownstream_valid ‹_›).1,
      (qorderedBiasAndDownstream_valid ‹_›).2,
      (qorderedSecondInputDQ_valid ‹_›).1,
      (qorderedSecondInputDQ_valid ‹_›).2.1,
      (qorderedSecondInputDQ_valid ‹_›).2.2⟩,
      ⟨_, _, _, ‹_›,
        (qorderedFirstInputPath_valid ‹_›).1,
        (qorderedFirstInputPath_valid ‹_›).2⟩, ?_⟩
  all_goals intro h5
  all_goals
    first
    | (exact qorderedResidualPath_exists ‹_›)
    | (have hc := ‹¬ (Option.isSome _ = true ∧ Option.isNone _ = true)›
       simp at hc
       done)
    | (exfalso
       revert h5
       simp)

/-- C1 (witness): the safety-gate property on the concrete successful fusion
graph `qoG1`. -/
theorem qordered_matmul_fuse_safety_gate_witness :
    isSafeToFuseNodes qoG1.node qoStaged1.nodes_to_remove
      ((qoStaged1.nodes_to_remove.getLast?.getD defaultNode).output) = true :=
  qordered_matmul_fuse_safety_gate qoG1 qoMM qoG1' qoStaged1
    (by decide) (by decide)

/-- C8 (witness): the validation property on the concrete successful fusion
graph `qoG1`. -/
theorem qordered_matmul_validates_checked_nodes_witness :
    (∃ dq1 q,
      qoStaged1.nodes_to_remove.getLast? = some q ∧
      qoStaged1.nodes_to_remove.getD
        (qoStaged1.nodes_to_remove.length - 2) defaultNode = dq1 ∧
      scaleKnown qoG1 (inN q 1) = true ∧ zpKnownZero qoG1 (inN q 2) = true ∧
      (getConstantValue qoG1 (inN dq1 0)).isSome = true ∧
      scaleKnown qoG1 (inN dq1 1) = true ∧ zpKnownZero qoG1 (inN dq1 2) = true) ∧
    (∃ r tr dq0, qorderedFirstInputPath qoG1 qoMM = .ok (some (r, tr, dq0)) ∧
      scaleKnown qoG1 (inN dq0 1) = true ∧ zpKnownZero qoG1 (inN dq0 2) = true) ∧
    (qoStaged1.nodes_to_remove.length = 5 →
      ∃ radq,
        qorderedResidualDQ qoG1 (qoStaged1.nodes_to_remove.getD 2 defaultNode)
          = .ok (some radq) ∧
        scaleKnown qoG1 (inN radq 1) = true ∧
        zpKnownZero qoG1 (inN radq 2) = true) :=
  qordered_matmul_validates_checked_nodes qoG1 qoMM qoG1' qoStaged1
    (by decide) (by decide)

/-- Appending an initializer preserves existing members. -/
theorem mem_addInitializer {g : Graph} (t : TensorP) {x : TensorP}
    (h : x ∈ g.initializer) : x ∈ (addInitializer g t).initializer := by
  unfold addInitializer
  split
  · exact h
  · exact List.mem_append_left _ h

/-- A freshly named initializer is a member after `addInitializer`. -/
theorem mem_addInitializer_self {g : Graph} {t : TensorP}
    (h : getInitializer g t.name = none) : t ∈ (addInitializer g t).initializer := by
  unfold addInitializer
  rw [h]
  simp

/-- C9: when `create_attention_node` emits an Attention node, the packed QKV
weight initializer it adds to the graph has combined output dimension equal
to the sum of the three per-matrix output sizes when the Q and V weight
shapes differ (and the node then carries a `qkv_hidden_sizes` attribute
listing the three sizes), and equal to three times the Q output size when
the shapes are all equal (in which case no `qkv_hidden_sizes` attribute is
attached); in both cases the payload packs the Q, K and V blocks per leading
index (concatenation along axis 1 resp. stacking). -/
theorem attention_packed_weight_dimension
    (g : Graph) (mask : Option String) (qm km vm qa va : NodeP)
    (ka : Option NodeP) (nh hs : Nat) (inp out : String)
    (aqk : Option String) (mfv : Option ℚ)
    (node : NodeP) (g2 : Graph)
    (qwT kwT vwT : TensorP)
    (hq : getInitializer g (inN qm 1) = some qwT)
    (hk : getInitializer g (inN km 1) = some kwT)
    (hv : getInitializer g (inN vm 1) = some vwT)
    (hfresh : getInitializer g (createNodeName g "Attention" ++ "_qkv_weight") = none)
    (h : createAttentionNode g mask qm km vm qa ka va nh hs inp out aqk mfv
        = .ok (some node, g2)) :
    ∃ w, w ∈ g2.initializer ∧
      w.name = node.name ++ "_qkv_weight" ∧
      w.dims = [(toArray qwT).shape.headD 0,
        if (toArray qwT).shape ≠ (toArray vwT).shape then
          (toArray qwT).shape.tail.prod + (toArray kwT).shape.tail.prod
            + (toArray vwT).shape.tail.prod
        else 3 * (toArray qwT).shape.tail.prod] ∧
      w.data = packQKV ((toArray qwT).shape.headD 0)
        ((toArray qwT).shape.tail.prod) ((toArray kwT).shape.tail.prod)
        ((toArray vwT).shape.tail.prod) (toArray qwT).data (toArray kwT).data
        (toArray vwT).data ∧
      (if (toArray qwT).shape ≠ (toArray vwT).shape then
        (AttrP.mk "qkv_hidden_sizes"
          (.ints [((toArray qwT).shape.tail.prod : Int),
            ((toArray kwT).shape.tail.prod : Int),
            ((toArray vwT).shape.tail.prod : Int)])) ∈ node.«attribute»
      else ∀ a ∈ node.«attribute», a.name ≠ "qkv_hidden_sizes") := by
  unfold createAttentionNode at h
  simp only [bind, Except.bind, pure, Except.pure, hq, hk, hv] at h
  repeat' first
    | exact Except.noConfusion h
    | exact Option.noConfusion (congrArg Prod.fst (Except.ok.inj h))
    | split at h
  all_goals cases h
  all_goals
    refine ⟨_, mem_addInitializer _ (mem_addInitializer_self hfresh), rfl, rfl, rfl, ?_⟩
  all_goals split
  all_goals rename_i hd
  all_goals cases mfv <;> simp [packedAttentionNode, hd]

/-- C9 witness: the packing theorem instantiated on a concrete
differing-shapes example (Q,K 2x2; V 2x3) with every hypothesis decided. -/
theorem attention_packed_weight_dimension_witness :
    ∃ w, w ∈ c9Out2.initializer ∧
      w.name = c9Node.name ++ "_qkv_weight" ∧
      w.dims = [(toArray c9qwT).shape.headD 0,
        if (toArray c9qwT).shape ≠ (toArray c9vwT).shape then
          (toArray c9qwT).shape.tail.prod + (toArray c9kwT).shape.tail.prod
            + (toArray c9vwT).shape.tail.prod
        else 3 * (toArray c9qwT).shape.tail.prod] ∧
      w.data = packQKV ((toArray c9qwT).shape.headD 0)
        ((toArray c9qwT).shape.tail.prod) ((toArray c9kwT).shape.tail.prod)
        ((toArray c9vwT).shape.tail.prod) (toArray c9qwT).data (toArray c9kwT).data
        (toArray c9vwT).data ∧
      (if (toArray c9qwT).shape ≠ (toArray c9vwT).shape then
        (AttrP.mk "qkv_hidden_sizes"
          (.ints [((toArray c9qwT).shape.tail.prod : Int),
            ((toArray c9kwT).shape.tail.prod : Int),
            ((toArray c9vwT).shape.tail.prod : Int)])) ∈ c9Node.«attribute»
      else ∀ a ∈ c9Node.«attribute», a.name ≠ "qkv_hidden_sizes") :=
  attention_packed_weight_dimension c9G none c9QMM c9KMM c9VMM c9QAdd c9VAdd
    none 1 2 "inp" "out" none none c9Node c9Out2 c9qwT c9kwT c9vwT
    (by decide) (by decide) (by decide) (by decide) (by decide)

theorem decStep_counts (st : SortSt) (a i : Nat) :
    (decStep st a).counts i = if i = a then st.counts a - 1 else st.counts i := rfl

theorem foldl_decStep_counts (is : List Nat) (st : SortSt) (i : Nat) :
    ((is.foldl decStep st).counts i) = st.counts i - (List.count i is : Int) := by
  induction is generalizing st with
  | nil => simp
  | cons a is ih =>
      rw [List.foldl_cons, ih, List.count_cons, decStep_counts]
      by_cases h : i = a
      · subst h
        rw [if_pos rfl]
        have : (i == i) = true := by simp
        rw [this]
        simp only [if_pos]
        push_cast
        omega
      · rw [if_neg h]
        have : (a == i) = false := by simpa using fun hh => h hh.symm
        rw [this]
        simp

theorem decStep_order_mem {st : SortSt} {a j : Nat} (h : j ∈ (decStep st a).order) :
    j ∈ st.order ∨ (decStep st a).counts j ≤ 0 := by
  unfold decStep at h ⊢
  dsimp at h ⊢
  split at h
  · rcases List.mem_append.mp h with h' | h'
    · exact .inl h'
    · right
      rename_i hv
      simp only [List.mem_singleton] at h'
      subst h'
      rw [if_pos rfl]
      omega
  · exact .inl h

theorem decStep_order_extends (st : SortSt) (a : Nat) :
    st.order <+: (decStep st a).order := by
  unfold decStep
  dsimp
  split
  · exact ⟨[a], rfl⟩
  · exact List.prefix_refl _

theorem foldl_decStep_order_extends (is : List Nat) (st : SortSt) :
    st.order <+: ((is.foldl decStep st).order) := by
  induction is generalizing st with
  | nil => exact List.prefix_refl _
  | cons a is ih => exact (decStep_order_extends st a).trans (ih (decStep st a))

theorem foldl_decStep_order_mem (is : List Nat) (st : SortSt) {j : Nat}
    (h : j ∈ ((is.foldl decStep st).order)) :
    j ∈ st.order ∨ ((is.foldl decStep st).counts j) ≤ 0 := by
  induction is generalizing st with
  | nil => exact .inl h
  | cons a is ih =>
      rw [List.foldl_cons] at h ⊢
      rcases ih (decStep st a) h with h' | h'
      · rcases decStep_order_mem h' with h'' | h''
        · exact .inl h''
        · right
          rw [foldl_decStep_counts]
          have : (0 : Int) ≤ (List.count j is : Int) := Int.ofNat_nonneg _
          omega
      · exact .inr h'

theorem sortOrderInv_decStep {l : List NodeP} {st : SortSt} {a : Nat}
    (h : sortOrderInv l st) (ha : a < l.length) : sortOrderInv l (decStep st a) := by
  obtain ⟨hnd, hmem⟩ := h
  unfold sortOrderInv decStep
  dsimp
  split <;> rename_i hv
  · have hnotin : a ∉ st.order := by
      intro ha'
      have := (hmem a ha').1
      omega
    constructor
    · simpa [List.nodup_append] using ⟨hnd, hnotin⟩
    · intro i hi
      rcases List.mem_append.mp hi with h' | h'
      · refine ⟨?_, (hmem i h').2⟩
        by_cases he : i = a
        · subst he; exact absurd h' hnotin
        · rw [if_neg he]; exact (hmem i h').1
      · simp only [List.mem_singleton] at h'
        subst h'
        rw [if_pos rfl]
        omega
  · refine ⟨hnd, fun i hi => ⟨?_, (hmem i hi).2⟩⟩
    by_cases he : i = a
    · subst he
      rw [if_pos rfl]
      have := (hmem i hi).1
      omega
    · rw [if_neg he]; exact (hmem i hi).1

theorem sortOrderInv_foldl_decStep {l : List NodeP} (is : List Nat) (st : SortSt)
    (h : sortOrderInv l st) (hlt : ∀ a ∈ is, a < l.length) :
    sortOrderInv l (is.foldl decStep st) := by
  induction is generalizing st with
  | nil => exact h
  | cons a is ih =>
      rw [List.foldl_cons]
      exact ih (decStep st a) (sortOrderInv_decStep h (hlt a (by simp)))
        (fun b hb => hlt b (by simp [hb]))

theorem count_flatMap_replicate (n : Nat) (f : Nat → Nat) (i : Nat) :
    (List.count i ((List.range n).flatMap (fun j => List.replicate (f j) j)))
      = if i < n then f i else 0 := by
  induction n with
  | zero => simp
  | succ n ih =>
      rw [List.range_succ, List.flatMap_append, List.count_append, ih]
      have : (List.range 0).flatMap (fun j => List.replicate (f j) j) = [] := rfl
      rw [List.flatMap_cons]
      simp only [List.flatMap_nil, List.append_nil]
      rw [List.count_replicate]
      by_cases h : i = n
      · subst h
        simp
      · have hb : (n == i) = false := by
          simpa using fun hh => h hh.symm
        rw [hb]
        simp only [Bool.false_eq_true, if_false, Nat.add_zero]
        by_cases h2 : i < n
        · rw [if_pos h2, if_pos (by omega)]
        · rw [if_neg h2, if_neg (by omega)]

theorem regs_count (l : List NodeP) (t : String) (i : Nat) :
    (List.count i (regs l t)) =
      if t = "" then 0 else if i < l.length then (getN l i).input.count t else 0 := by
  unfold regs
  split
  · simp
  · exact count_flatMap_replicate l.length _ i

theorem regs_mem_lt {l : List NodeP} {t : String} {i : Nat} (h : i ∈ regs l t) :
    i < l.length := by
  unfold regs at h
  split at h
  · simp at h
  · rcases List.mem_flatMap.mp h with ⟨j, hj, hrep⟩
    rw [List.eq_of_mem_replicate hrep]
    exact List.mem_range.mp hj

theorem processName_counts (l : List NodeP) (st : SortSt) (t : String) (i : Nat) :
    (processName l st t).counts i =
      st.counts i -
        ((if t = "" then 0 else if i < l.length then (getN l i).input.count t else 0 : Nat) : Int) := by
  unfold processName
  rw [foldl_decStep_counts, regs_count]

theorem processName_order_mem {l : List NodeP} {st : SortSt} {t : String} {j : Nat}
    (h : j ∈ (processName l st t).order) :
    j ∈ st.order ∨ (processName l st t).counts j ≤ 0 :=
  foldl_decStep_order_mem _ _ h

theorem processName_order_extends (l : List NodeP) (st : SortSt) (t : String) :
    st.order <+: (processName l st t).order :=
  foldl_decStep_order_extends _ _

theorem sortOrderInv_processName {l : List NodeP} {st : SortSt} {t : String}
    (h : sortOrderInv l st) : sortOrderInv l (processName l st t) :=
  sortOrderInv_foldl_decStep _ _ h (fun _ ha => regs_mem_lt ha)

theorem foldl_processName_order_extends (l : List NodeP) (ts : List String) (st : SortSt) :
    st.order <+: ((ts.foldl (processName l) st).order) := by
  induction ts generalizing st with
  | nil => exact List.prefix_refl _
  | cons t ts ih => exact (processName_order_extends l st t).trans (ih _)

theorem count_le_filter_ne (xs : List String) (t : String) (h : t ≠ "") :
    xs.count t ≤ (xs.filter (fun s => s ≠ "")).length := by
  induction xs with
  | nil => simp
  | cons x xs ih =>
      rw [List.count_cons, List.filter_cons]
      by_cases hx : x = t
      · subst hx
        have hxe : (decide (x ≠ "") = true) := by simpa using h
        rw [if_pos hxe]
        simp only [beq_self_eq_true, if_true, List.length_cons]
        omega
      · have hb : (x == t) = false := by simpa using hx
        rw [hb]
        simp only [Bool.false_eq_true, if_false]
        split
        · simp only [List.length_cons]
          omega
        · omega

theorem indicator_sum (E : List String) (x : String) (h : E.Nodup) :
    ((E.map (fun t => if x = t then 1 else 0)).sum : Nat) = if x ∈ E then 1 else 0 := by
  induction E with
  | nil => simp
  | cons a E ih =>
      rcases List.nodup_cons.mp h with ⟨ha, h'⟩
      rw [List.map_cons, List.sum_cons, ih h']
      by_cases hx : x = a
      · subst hx
        rw [if_pos rfl, if_neg ha, if_pos (by simp)]
      · rw [if_neg hx]
        by_cases hm : x ∈ E
        · rw [if_pos hm, if_pos (by simp [hm])]
        · rw [if_neg hm, if_neg (by simp [hx, hm])]

theorem sum_map_add_nat (E : List String) (f g : String → Nat) :
    ((E.map (fun t => f t + g t)).sum) = (E.map f).sum + (E.map g).sum := by
  induction E with
  | nil => simp
  | cons a E ih =>
      simp only [List.map_cons, List.sum_cons, ih]
      omega

theorem sum_count_le (xs E : List String) (t0 : String)
    (hnd : E.Nodup) (hE : ∀ s ∈ E, s ≠ "") (ht : t0 ∉ E) (h0 : t0 ≠ "") :
    ((E.map (fun t => xs.count t)).sum) + xs.count t0
      ≤ (xs.filter (fun s => s ≠ "")).length := by
  induction xs with
  | nil => simp
  | cons x xs ih =>
      have hstep : (E.map (fun t => List.count t (x :: xs))).sum
          = (E.map (fun t => List.count t xs)).sum + (if x ∈ E then 1 else 0) := by
        have h1 : (E.map (fun t => List.count t (x :: xs)))
            = E.map (fun t => List.count t xs + if x = t then 1 else 0) := by
          apply List.map_congr_left
          intro t _
          rw [List.count_cons]
          by_cases hxt : x = t
          · subst hxt
            rw [if_pos rfl]
            simp
          · have hb : (x == t) = false := by simpa using hxt
            rw [hb, if_neg hxt]
            simp
        rw [h1, sum_map_add_nat, indicator_sum E x hnd]
      rw [hstep, List.count_cons, List.filter_cons]
      by_cases h1 : x ∈ E
      · have hxne : x ≠ "" := hE x h1
        have hxt0 : ¬ (x = t0) := fun he => ht (he ▸ h1)
        simp only [h1, if_true, beq_iff_eq, hxt0, if_false, List.length_cons]
        have hxe : (decide (x ≠ "") = true) := by simpa using hxne
        rw [if_pos hxe]
        simp only [List.length_cons]
        omega
      · simp only [h1, if_false]
        by_cases h2 : x = t0
        · subst h2
          have hxe : (decide (x ≠ "") = true) := by simpa using h0
          rw [if_pos hxe]
          simp only [beq_self_eq_true, if_true, List.length_cons]
          omega
        · have hb : (x == t0) = false := by simpa using h2
          rw [hb]
          simp only [Bool.false_eq_true, if_false]
          split
          · simp only [List.length_cons]
            omega
          · omega

theorem decTotal_filter (l : List NodeP) (E : List String) (i : Nat) :
    decTotal l E i
      = (((E.filter (fun s => s ≠ "")).map (fun t => (getN l i).input.count t)).sum) := by
  unfold decTotal
  induction E with
  | nil => simp
  | cons t E ih =>
      rw [List.map_cons, List.sum_cons, ih, List.filter_cons]
      by_cases h : t = ""
      · rw [if_pos h]
        simp [h]
      · rw [if_neg h, if_pos (by simpa using h)]
        simp

theorem decTotal_le (l : List NodeP) (E : List String) (i : Nat) (t0 : String)
    (hnd : (E.filter (fun s => s ≠ "")).Nodup) (ht : t0 ∉ E) (h0 : t0 ≠ "") :
    decTotal l E i + (getN l i).input.count t0 ≤ depsOfNode (getN l i) := by
  rw [decTotal_filter]
  have hsub : ∀ s ∈ E.filter (fun s => s ≠ ""), s ≠ "" := by
    intro s hs
    simpa using (List.mem_filter.mp hs).2
  have ht' : t0 ∉ E.filter (fun s => s ≠ "") := by
    intro hm
    exact ht (List.mem_filter.mp hm).1
  exact sum_count_le _ _ t0 hnd hsub ht' h0

theorem decTotal_append (l : List NodeP) (E : List String) (t : String) (i : Nat) :
    decTotal l (E ++ [t]) i
      = decTotal l E i + (if t = "" then 0 else (getN l i).input.count t) := by
  unfold decTotal
  rw [List.map_append, List.sum_append]
  simp

theorem stuck_step {l : List NodeP} {S : List Nat} {tfun : Nat → String}
    {st : SortSt} {E : List String} {t : String}
    (hS : ∀ i ∈ S, i < l.length ∧ tfun i ∈ (getN l i).input ∧ tfun i ≠ "")
    (hsi : stuckInv l S st E)
    (hev : eventsOk S tfun (E ++ [t])) :
    stuckInv l S (processName l st t) (E ++ [t]) := by
  intro i hi
  obtain ⟨hlt, hin, hne⟩ := hS i hi
  obtain ⟨hcnt, hnm⟩ := hsi i hi
  obtain ⟨hndE, htf⟩ := hev
  have hc' : (processName l st t).counts i
      = (depsOfNode (getN l i) : Int) - (decTotal l (E ++ [t]) i : Int) := by
    rw [processName_counts, hcnt, decTotal_append]
    by_cases h : t = ""
    · rw [if_pos h, if_pos h]
      simp
    · rw [if_neg h, if_neg h, if_pos hlt]
      push_cast
      ring
  have hpos : (1 : Int) ≤ (processName l st t).counts i := by
    rw [hc']
    have hb := decTotal_le l (E ++ [t]) i (tfun i) hndE (htf i hi) hne
    have hcp : 0 < List.count (tfun i) (getN l i).input := List.count_pos_iff.mpr hin
    omega
  refine ⟨hc', fun hmem => ?_⟩
  rcases processName_order_mem hmem with h' | h'
  · exact hnm h'
  · omega

theorem stuck_fold {l : List NodeP} {S : List Nat} {tfun : Nat → String}
    (hS : ∀ i ∈ S, i < l.length ∧ tfun i ∈ (getN l i).input ∧ tfun i ≠ "") :
    ∀ (ts : List String) (st : SortSt) (E : List String),
    stuckInv l S st E → sortOrderInv l st → eventsOk S tfun (E ++ ts) →
    stuckInv l S (ts.foldl (processName l) st) (E ++ ts) ∧
      sortOrderInv l (ts.foldl (processName l) st)
  | [], st, E, h1, h2, _ => by simpa using ⟨h1, h2⟩
  | t :: ts, st, E, h1, h2, hev => by
      have hev1 : eventsOk S tfun (E ++ [t]) := by
        obtain ⟨hnd, htf⟩ := hev
        constructor
        · have hpre : (E ++ [t]) <+: (E ++ t :: ts) := ⟨ts, by simp⟩
          exact List.Nodup.sublist (List.Sublist.filter _ hpre.sublist) hnd
        · intro i hi
          have := htf i hi
          simp only [List.mem_append, List.mem_cons, List.mem_singleton] at this ⊢
          tauto
      have h1' := stuck_step hS h1 hev1
      have h2' : sortOrderInv l (processName l st t) := sortOrderInv_processName h2
      have hres := stuck_fold hS ts (processName l st t) (E ++ [t]) h1' h2'
        (by simpa using hev)
      simpa using hres

theorem pairwise_lt_of_chain_ne :
    ∀ (d : List String), d.Chain' (fun a b => a ≠ b) →
      d.Pairwise (fun a b => a ≤ b) → d.Pairwise (fun a b => a < b)
  | [], _, _ => .nil
  | [_], _, _ => by simp
  | a :: b :: d, hc, hp => by
      rw [List.chain'_cons] at hc
      rcases List.pairwise_cons.mp hp with ⟨hle, hp'⟩
      have hab : a < b := lt_of_le_of_ne (hle b (by simp)) hc.1
      have ih := pairwise_lt_of_chain_ne (b :: d) hc.2 hp'
      refine List.pairwise_cons.mpr ⟨?_, ih⟩
      intro c hc'
      rcases List.mem_cons.mp hc' with rfl | hcd
      · exact hab
      · exact lt_of_lt_of_le hab ((List.pairwise_cons.mp hp').1 c hcd)

theorem mem_insertSorted {x a : String} :
    ∀ {ys : List String}, a ∈ insertSorted x ys ↔ a = x ∨ a ∈ ys
  | [] => by simp [insertSorted]
  | y :: ys => by
      unfold insertSorted
      split
      · simp
      · rw [List.mem_cons, List.mem_cons, @mem_insertSorted x a ys]
        tauto

theorem insertSorted_pairwise {x : String} :
    ∀ {ys : List String}, ys.Pairwise (fun a b => a ≤ b) →
      (insertSorted x ys).Pairwise (fun a b => a ≤ b)
  | [], _ => by simp [insertSorted]
  | y :: ys, h => by
      unfold insertSorted
      rcases List.pairwise_cons.mp h with ⟨hy, hys⟩
      split
      · rename_i hxy
        refine List.pairwise_cons.mpr ⟨?_, h⟩
        intro b hb
        rcases List.mem_cons.mp hb with rfl | hb'
        · exact hxy
        · exact le_trans hxy (hy b hb')
      · rename_i hxy
        refine List.pairwise_cons.mpr ⟨?_, insertSorted_pairwise hys⟩
        intro b hb
        rcases mem_insertSorted.mp hb with rfl | hb'
        · exact le_of_not_le hxy
        · exact hy b hb'

theorem sortNames_pairwise :
    ∀ (l : List String), (sortNames l).Pairwise (fun a b => a ≤ b)
  | [] => .nil
  | _ :: xs => insertSorted_pairwise (sortNames_pairwise xs)

theorem mem_sortNames {a : String} :
    ∀ {l : List String}, a ∈ sortNames l ↔ a ∈ l
  | [] => Iff.rfl
  | _ :: xs => by
      unfold sortNames
      rw [mem_insertSorted, List.mem_cons, @mem_sortNames a xs]

theorem sortedInitNames_nodup (g : Graph) : (sortedInitNames g).Nodup := by
  unfold sortedInitNames
  set base := g.initializer.map (·.name) ++ g.input.map (·.name) with hbase
  have hsorted := sortNames_pairwise base
  have hchain := List.destutter_is_chain' (· ≠ ·) (sortNames base)
  have hsub := List.destutter_sublist (· ≠ ·) (sortNames base)
  have hp : ((sortNames base).destutter (· ≠ ·)).Pairwise (fun a b => a ≤ b) :=
    hsorted.sublist hsub
  exact (pairwise_lt_of_chain_ne _ hchain hp).imp ne_of_lt

theorem sortedInitNames_mem {g : Graph} {t : String} (h : t ∈ sortedInitNames g) :
    t ∈ initInputNames g := by
  unfold sortedInitNames at h
  unfold initInputNames
  have h2 := (List.destutter_sublist (· ≠ ·) _).mem h
  exact mem_sortNames.mp h2

theorem count_flatMap_eq_sum (l : List NodeP) (t : String) :
    List.count t (l.flatMap (fun n => n.output))
      = ∑ k ∈ Finset.range l.length, List.count t (getN l k).output := by
  induction l with
  | nil => simp
  | cons n l ih =>
      rw [List.flatMap_cons, List.count_append, ih, List.length_cons,
        Finset.sum_range_succ']
      have h0 : getN (n :: l) 0 = n := rfl
      have hs : ∀ k, getN (n :: l) (k + 1) = getN l k := fun k => rfl
      simp only [h0, hs]
      omega

theorem count_output_le_flatMap {l : List NodeP} {j : Nat} (hj : j < l.length)
    (t : String) :
    List.count t (getN l j).output ≤ List.count t (l.flatMap (fun n => n.output)) := by
  rw [count_flatMap_eq_sum]
  have hsub : ({j} : Finset Nat) ⊆ Finset.range l.length := by
    intro x hx
    rw [Finset.mem_singleton] at hx
    subst hx
    exact Finset.mem_range.mpr hj
  have hle : ∑ k ∈ ({j} : Finset Nat), List.count t (getN l k).output
      ≤ ∑ k ∈ Finset.range l.length, List.count t (getN l k).output :=
    Finset.sum_le_sum_of_subset hsub
  simpa using hle

theorem flatMap_count_two {l : List NodeP} {j1 j2 : Nat} {t : String}
    (h1 : j1 < l.length) (h2 : j2 < l.length) (hne : j1 ≠ j2)
    (hc1 : 0 < List.count t (getN l j1).output)
    (hc2 : 0 < List.count t (getN l j2).output) :
    2 ≤ List.count t (l.flatMap (fun n => n.output)) := by
  rw [count_flatMap_eq_sum]
  have hsub : ({j1, j2} : Finset Nat) ⊆ Finset.range l.length := by
    intro x hx
    rcases Finset.mem_insert.mp hx with rfl | hx'
    · exact Finset.mem_range.mpr h1
    · rw [Finset.mem_singleton] at hx'
      subst hx'
      exact Finset.mem_range.mpr h2
  have hle : ∑ k ∈ ({j1, j2} : Finset Nat), List.count t (getN l k).output
      ≤ ∑ k ∈ Finset.range l.length, List.count t (getN l k).output :=
    Finset.sum_le_sum_of_subset hsub
  rw [Finset.sum_pair hne] at hle
  omega

theorem prefix_getD {l1 l2 : List Nat} (h : l1 <+: l2) {k : Nat}
    (hk : k < l1.length) (d : Nat) : l2.getD k d = l1.getD k d := by
  obtain ⟨r, rfl⟩ := h
  rw [List.getD_eq_getElem _ _ hk,
    List.getD_eq_getElem _ _ (Nat.lt_of_lt_of_le hk (by simp)),
    List.getElem_append_left hk]

theorem getN_mem {l : List NodeP} {j : Nat} (hj : j < l.length) : getN l j ∈ l := by
  unfold getN
  rw [List.getD_eq_getElem _ _ hj]
  exact List.getElem_mem hj

theorem phase3_stuck {g : Graph} {S : List Nat} {tfun : Nat → String}
    (hS : ∀ i ∈ S, i < g.node.length ∧ tfun i ∈ (getN g.node i).input ∧ tfun i ≠ "")
    (hprod : ∀ i ∈ S, ∀ j ∈ List.range g.node.length,
      tfun i ∈ (getN g.node j).output → j ∈ S)
    (hwf1 : ∀ t ∈ g.node.flatMap (fun n => n.output), t ≠ "" →
      List.count t (g.node.flatMap (fun n => n.output)) ≤ 1)
    (hwf2 : ∀ t ∈ g.node.flatMap (fun n => n.output), t ≠ "" →
      t ∉ initInputNames g) :
    ∀ (fuel : Nat) (st : SortSt) (start : Nat) (E : List String),
    stuckInv g.node S st E → sortOrderInv g.node st → eventsOk S tfun E →
    (∀ t, t ≠ "" → t ∈ E → t ∈ initInputNames g ∨
      ∃ k, k < start ∧ k < st.order.length ∧
        t ∈ (getN g.node (st.order.getD k 0)).output) →
    (∀ i ∈ S, i ∉ (phase3 g.node fuel st start).order) ∧
      sortOrderInv g.node (phase3 g.node fuel st start)
  | 0, st, start, E, hsi, hoi, _, _ => ⟨fun i hi => (hsi i hi).2, hoi⟩
  | fuel + 1, st, start, E, hsi, hoi, hev, hcomp => by
      rw [phase3]
      split
      · rename_i hstart
        set j := st.order.getD start 0 with hj
        have hjmem : j ∈ st.order := by
          rw [hj, List.getD_eq_getElem _ _ hstart]
          exact List.getElem_mem hstart
        have hjlt : j < g.node.length := (hoi.2 j hjmem).2
        have hjS : j ∉ S := fun hjs => (hsi j hjs).2 hjmem
        set outs := (getN g.node j).output with houts
        have houts_sub : ∀ a ∈ outs, a ∈ g.node.flatMap (fun n => n.output) := by
          intro a ha
          exact List.mem_flatMap.mpr ⟨getN g.node j, getN_mem hjlt, ha⟩
        have htfo : ∀ i ∈ S, tfun i ∉ outs := by
          intro i hi hmem
          exact hjS (hprod i hi j (List.mem_range.mpr hjlt) hmem)
        have houtnd : (outs.filter (fun s => s ≠ "")).Nodup := by
          rw [List.nodup_iff_count_le_one]
          intro a
          by_cases hca : 0 < List.count a (outs.filter (fun s => s ≠ ""))
          · have hamem := List.count_pos_iff.mp hca
            have ha1 := List.mem_filter.mp hamem
            have hane : a ≠ "" := by simpa using ha1.2
            calc List.count a (outs.filter (fun s => s ≠ ""))
                ≤ List.count a outs := (List.filter_sublist outs).count_le a
              _ ≤ List.count a (g.node.flatMap (fun n => n.output)) :=
                  count_output_le_flatMap hjlt a
              _ ≤ 1 := hwf1 a (houts_sub a ha1.1) hane
          · omega
        have hdisj : ∀ a ∈ E.filter (fun s => s ≠ ""),
            a ∉ outs.filter (fun s => s ≠ "") := by
          intro a haE haO
          have ha1 := List.mem_filter.mp haE
          have ha2 := List.mem_filter.mp haO
          have hane : a ≠ "" := by simpa using ha1.2
          rcases hcomp a hane ha1.1 with hinit | ⟨k, hk1, hk2, hkout⟩
          · exact hwf2 a (houts_sub a ha2.1) hane hinit
          · set j' := st.order.getD k 0 with hj'
            have hj'mem : j' ∈ st.order := by
              rw [hj', List.getD_eq_getElem _ _ hk2]
              exact List.getElem_mem hk2
            have hj'lt : j' < g.node.length := (hoi.2 j' hj'mem).2
            have hne : j' ≠ j := by
              intro he
              have hkst : k ≠ start := Nat.ne_of_lt hk1
              apply hkst
              have h1 : st.order[k] = st.order[start] := by
                have e1 : st.order[k] = j' := by
                  rw [hj', List.getD_eq_getElem _ _ hk2]
                have e2 : st.order[start] = j := by
                  rw [hj, List.getD_eq_getElem _ _ hstart]
                rw [e1, e2, he]
              exact (hoi.1.getElem_inj_iff).mp h1
            exact absurd (flatMap_count_two hj'lt hjlt hne
                (List.count_pos_iff.mpr hkout) (List.count_pos_iff.mpr ha2.1))
              (by have := hwf1 a (houts_sub a ha2.1) hane; omega)
        have hevnew : eventsOk S tfun (E ++ outs) := by
          constructor
          · rw [List.filter_append, List.nodup_append]
            exact ⟨hev.1, houtnd, hdisj⟩
          · intro i hi
            rw [List.mem_append]
            rintro (h' | h')
            · exact hev.2 i hi h'
            · exact htfo i hi h'
        have hfold := stuck_fold hS outs st E hsi hoi hevnew
        have hpre : st.order <+: ((outs.foldl (processName g.node) st).order) :=
          foldl_processName_order_extends g.node outs st
        have hcomp' : ∀ t, t ≠ "" → t ∈ E ++ outs →
            t ∈ initInputNames g ∨
            ∃ k, k < start + 1 ∧
              k < ((outs.foldl (processName g.node) st).order).length ∧
              t ∈ (getN g.node
                (((outs.foldl (processName g.node) st).order).getD k 0)).output := by
          intro t htne htmem
          rcases List.mem_append.mp htmem with h' | h'
          · rcases hcomp t htne h' with hinit | ⟨k, hk1, hk2, hkout⟩
            · exact .inl hinit
            · right
              refine ⟨k, Nat.lt_succ_of_lt hk1,
                Nat.lt_of_lt_of_le hk2 hpre.length_le, ?_⟩
              rw [prefix_getD hpre hk2]
              exact hkout
          · right
            refine ⟨start, Nat.lt_succ_self _,
              Nat.lt_of_lt_of_le hstart hpre.length_le, ?_⟩
            rw [prefix_getD hpre hstart]
            exact h'
        exact phase3_stuck hS hprod hwf1 hwf2 fuel
          (outs.foldl (processName g.node) st) (start + 1) (E ++ outs)
          hfold.1 hfold.2 (by simpa using hevnew) hcomp'
      · exact ⟨fun i hi => (hsi i hi).2, hoi⟩

theorem phase1_stuck {l : List NodeP} {S : List Nat} {tfun : Nat → String}
    (hS : ∀ i ∈ S, i < l.length ∧ tfun i ∈ (getN l i).input ∧ tfun i ≠ "") :
    stuckInv l S (phase1 l) [] := by
  intro i hi
  obtain ⟨hlt, hin, htne⟩ := hS i hi
  constructor
  · show ((depsOfNode (getN l i) : Int)) = _
    unfold decTotal
    simp
  · show i ∉ (List.range l.length).filter (fun i => depsOfNode (getN l i) = 0)
    simp only [List.mem_filter, List.mem_range, decide_eq_true_eq]
    rintro ⟨_, hz⟩
    have h1 : 0 < List.count (tfun i) (getN l i).input := List.count_pos_iff.mpr hin
    have h2 := count_le_filter_ne (getN l i).input (tfun i) htne
    unfold depsOfNode at hz
    omega

theorem phase1_orderInv (l : List NodeP) : sortOrderInv l (phase1 l) := by
  constructor
  · exact (List.nodup_range _).filter _
  · intro i hi
    have hi' : i ∈ (List.range l.length).filter (fun i => depsOfNode (getN l i) = 0) := hi
    simp only [List.mem_filter, List.mem_range, decide_eq_true_eq] at hi'
    refine ⟨?_, hi'.1⟩
    show ((depsOfNode (getN l i) : Int)) ≤ 0
    rw [hi'.2]
    simp

/-- C4 (amended): on a graph where every nonempty tensor name has at most one
producer (the ONNX single-assignment condition: node output occurrences are
globally unique and never collide with initializer/graph-input names), any
nonempty set `S` of node indices that is closed under producers of a chosen
unsatisfiable input name — in particular the node set of any cycle whose
members wait on each other — makes `topological_sort` terminate with the
fatal "Graph is not a DAG" error rather than silently truncating. -/
theorem topological_sort_cycle_detected (g : Graph) (S : List Nat)
    (tfun : Nat → String)
    (hne : S ≠ [])
    (hS : ∀ i ∈ S, i < g.node.length ∧ tfun i ∈ (getN g.node i).input ∧
      tfun i ≠ "" ∧ tfun i ∉ initInputNames g)
    (hprod : ∀ i ∈ S, ∀ j ∈ List.range g.node.length,
      tfun i ∈ (getN g.node j).output → j ∈ S)
    (hwf1 : ∀ t ∈ g.node.flatMap (fun n => n.output), t ≠ "" →
      List.count t (g.node.flatMap (fun n => n.output)) ≤ 1)
    (hwf2 : ∀ t ∈ g.node.flatMap (fun n => n.output), t ≠ "" →
      t ∉ initInputNames g) :
    topologicalSort g = .error "Graph is not a DAG" := by
  have hS3 : ∀ i ∈ S, i < g.node.length ∧ tfun i ∈ (getN g.node i).input ∧
      tfun i ≠ "" :=
    fun i hi => ⟨(hS i hi).1, (hS i hi).2.1, (hS i hi).2.2.1⟩
  have hevInit : eventsOk S tfun ([] ++ sortedInitNames g) := by
    constructor
    · simpa using (sortedInitNames_nodup g).filter _
    · intro i hi hmem
      simp only [List.nil_append] at hmem
      exact (hS i hi).2.2.2 (sortedInitNames_mem hmem)
  have hfold := stuck_fold hS3 (sortedInitNames g) (phase1 g.node) []
    (phase1_stuck hS3) (phase1_orderInv g.node) hevInit
  have hcomp2 : ∀ t, t ≠ "" → t ∈ ([] ++ sortedInitNames g) →
      t ∈ initInputNames g ∨
      ∃ k, k < 0 ∧
        k < (((sortedInitNames g).foldl (processName g.node)
          (phase1 g.node)).order).length ∧
        t ∈ (getN g.node
          ((((sortedInitNames g).foldl (processName g.node)
            (phase1 g.node)).order).getD k 0)).output :=
    fun t _ hm => .inl (sortedInitNames_mem (by simpa using hm))
  have h3 := phase3_stuck hS3 hprod hwf1 hwf2 (g.node.length + 1)
    ((sortedInitNames g).foldl (processName g.node) (phase1 g.node)) 0
    ([] ++ sortedInitNames g) hfold.1 hfold.2 hevInit hcomp2
  obtain ⟨i0, hi0⟩ : ∃ i, i ∈ S := by
    cases S with
    | nil => exact absurd rfl hne
    | cons a s => exact ⟨a, by simp⟩
  have hi0lt : i0 < g.node.length := (hS i0 hi0).1
  unfold topologicalSort
  dsimp only
  split
  · rename_i hlen
    exfalso
    set st3 := phase3 g.node (g.node.length + 1)
      ((sortedInitNames g).foldl (processName g.node) (phase1 g.node)) 0 with hst3
    have hsub : st3.order.toFinset ⊆ Finset.range g.node.length := by
      intro x hx
      exact Finset.mem_range.mpr ((h3.2.2 x (List.mem_toFinset.mp hx)).2)
    have hcard : (Finset.range g.node.length).card ≤ st3.order.toFinset.card := by
      rw [List.toFinset_card_of_nodup h3.2.1, hlen, Finset.card_range]
    have heqf := Finset.eq_of_subset_of_card_le hsub hcard
    have hmem0 : i0 ∈ st3.order.toFinset := by
      rw [heqf]
      exact Finset.mem_range.mpr hi0lt
    exact h3.1 i0 hi0 (List.mem_toFinset.mp hmem0)
  · rfl

/-- C4 (counterexample): a graph in which node `A` consumes node `B`'s output
and `B` consumes `A`'s output, yet `topological_sort` returns normally with
all four nodes — it does not report the not-a-DAG error, because the
duplicated producer of `u` drives `A`'s dependency counter to zero.  The
returned order even places `A` before `B`, its producer. -/
theorem topological_sort_accepts_cyclic_graph :
    c4NodeA ∈ dupProducerG.node ∧ c4NodeB ∈ dupProducerG.node ∧
    outN c4NodeA 0 ∈ c4NodeB.input ∧ outN c4NodeB 0 ∈ c4NodeA.input ∧
    topologicalSort dupProducerG = .ok dupSortedG := by decide

/-- C4 witness: the cycle-detection theorem applied to the spec's two-node
cycle, every hypothesis discharged by evaluation. -/
theorem topological_sort_cycle_detected_witness :
    topologicalSort twoCycleG = .error "Graph is not a DAG" :=
  topological_sort_cycle_detected twoCycleG [0, 1]
    (fun i => if i = 0 then "b" else "a")
    (by decide) (by decide) (by decide) (by decide) (by decide)

theorem range_getD {m start : Nat} (h : start < m) :
    (List.range m).getD start 0 = start := by
  rw [List.getD_eq_getElem _ _ (by simpa using h)]
  exact List.getElem_range start _

theorem getN_map {π : List Nat} {l : List NodeP} {p : Nat} (h : p < π.length) :
    getN (π.map (getN l)) p = getN l (π.getD p 0) := by
  unfold getN
  rw [List.getD_eq_getElem _ _ (by simpa using h), List.getElem_map,
    List.getD_eq_getElem _ _ h]

theorem map_getN_range (l : List NodeP) :
    (List.range l.length).map (getN l) = l := by
  apply List.ext_getElem
  · simp
  · intro i h1 h2
    rw [List.getElem_map, List.getElem_range]
    unfold getN
    rw [List.getD_eq_getElem _ _ h2]

theorem phase3_order_extends (l : List NodeP) :
    ∀ (fuel : Nat) (st : SortSt) (start : Nat),
    st.order <+: (phase3 l fuel st start).order
  | 0, st, start => List.prefix_refl _
  | fuel + 1, st, start => by
      rw [phase3]
      split
      · exact (foldl_processName_order_extends l _ st).trans
          (phase3_order_extends l fuel _ (start + 1))
      · exact List.prefix_refl _

theorem sortOrderInv_foldl_processName {l : List NodeP} (ts : List String)
    (st : SortSt) (h : sortOrderInv l st) :
    sortOrderInv l (ts.foldl (processName l) st) := by
  induction ts generalizing st with
  | nil => exact h
  | cons t ts ih => exact ih _ (sortOrderInv_processName h)

theorem phase3_orderInv {l : List NodeP} :
    ∀ (fuel : Nat) (st : SortSt) (start : Nat), sortOrderInv l st →
    sortOrderInv l (phase3 l fuel st start)
  | 0, st, start, h => h
  | fuel + 1, st, start, h => by
      rw [phase3]
      split
      · exact phase3_orderInv fuel _ (start + 1)
          (sortOrderInv_foldl_processName _ st h)
      · exact h

theorem replicate_decStep_order (m k : Nat) (st : SortSt) :
    ((List.replicate m k).foldl decStep st).order
      = st.order ++
        (if 0 < st.counts k ∧ st.counts k ≤ (m : Int) then [k] else []) := by
  induction m generalizing st with
  | zero =>
      simp only [List.replicate, List.foldl_nil]
      rw [if_neg (by omega)]
      simp
  | succ m ih =>
      rw [List.replicate_succ, List.foldl_cons, ih]
      have hc : (decStep st k).counts k = st.counts k - 1 := by
        rw [decStep_counts, if_pos rfl]
      rw [hc]
      by_cases h1 : st.counts k = 1
      · have ho : (decStep st k).order = st.order ++ [k] := by
          unfold decStep
          dsimp
          rw [if_pos (by omega)]
        rw [ho, if_neg (by omega), if_pos (by omega)]
        simp
      · have ho : (decStep st k).order = st.order := by
          unfold decStep
          dsimp
          rw [if_neg (by omega)]
        rw [ho]
        by_cases h2 : 0 < st.counts k ∧ st.counts k ≤ (m + 1 : Int)
        · rw [if_pos (by omega), if_pos (by push_cast at h2 ⊢; omega)]
        · rw [if_neg (by omega), if_neg (by push_cast at h2 ⊢; omega)]

theorem flatMap_decStep_order (ks : List Nat) (m : Nat → Nat) (st : SortSt)
    (hnd : ks.Nodup) :
    ((ks.flatMap (fun k => List.replicate (m k) k)).foldl decStep st).order
      = st.order ++ ks.filter
          (fun k => decide (0 < st.counts k ∧ st.counts k ≤ (m k : Int))) := by
  induction ks generalizing st with
  | nil => simp
  | cons k ks ih =>
      rcases List.nodup_cons.mp hnd with ⟨hk, hnd'⟩
      rw [List.flatMap_cons, List.foldl_append, ih _ hnd', List.filter_cons]
      have hcount : ∀ k', k' ≠ k →
          ((List.replicate (m k) k).foldl decStep st).counts k' = st.counts k' := by
        intro k' hne
        rw [foldl_decStep_counts, List.count_replicate]
        have : (k == k') = false := by simpa using fun hh => hne hh.symm
        rw [this]
        simp
      have hfc : ks.filter (fun k' => decide (0 <
            ((List.replicate (m k) k).foldl decStep st).counts k' ∧
            ((List.replicate (m k) k).foldl decStep st).counts k' ≤ (m k' : Int)))
          = ks.filter (fun k' => decide (0 < st.counts k' ∧
            st.counts k' ≤ (m k' : Int))) := by
        apply List.filter_congr
        intro x hx
        rw [hcount x (fun he => hk (he ▸ hx))]
      rw [hfc, replicate_decStep_order]
      by_cases h : 0 < st.counts k ∧ st.counts k ≤ (m k : Int)
      · rw [if_pos h, if_pos (by simpa using h)]
        simp
      · rw [if_neg h, if_neg (by simpa using h)]
        simp

theorem processName_order_closed (l : List NodeP) (st : SortSt) (t : String) :
    (processName l st t).order
      = st.order ++ (List.range l.length).filter
          (fun i => decide (0 < st.counts i ∧ st.counts i ≤
            ((if t = "" then 0 else (getN l i).input.count t : Nat) : Int))) := by
  unfold processName regs
  split
  · simp only [List.foldl_nil, Nat.cast_zero]
    have h0 : ∀ a ∈ List.range l.length,
        ¬ (decide (0 < st.counts a ∧ st.counts a ≤ (0 : Int)) = true) := by
      intro a _
      simp only [decide_eq_true_eq]
      omega
    rw [List.filter_eq_nil_iff.mpr h0]
    exact (List.append_nil _).symm
  · rw [flatMap_decStep_order _ _ _ (List.nodup_range _)]

theorem filter_range_segment (n m k : Nat) (h : m + k ≤ n) :
    ((List.range n).filter (fun i => decide (m ≤ i ∧ i < m + k)))
      = (List.range k).map (fun x => m + x) := by
  have h1 : n = m + k + (n - (m + k)) := by omega
  rw [h1, List.range_add, List.range_add, List.filter_append, List.filter_append]
  have e1 : (List.range m).filter (fun i => decide (m ≤ i ∧ i < m + k)) = [] := by
    rw [List.filter_eq_nil_iff]
    intro a ha
    have := List.mem_range.mp ha
    simp only [decide_eq_true_eq]
    omega
  have e2 : ((List.range k).map (fun x => m + x)).filter
      (fun i => decide (m ≤ i ∧ i < m + k)) = (List.range k).map (fun x => m + x) := by
    rw [List.filter_eq_self]
    intro a ha
    rcases List.mem_map.mp ha with ⟨x, hx, rfl⟩
    have := List.mem_range.mp hx
    simp only [decide_eq_true_eq]
    omega
  have e3 : ((List.range (n - (m + k))).map (fun x => m + k + x)).filter
      (fun i => decide (m ≤ i ∧ i < m + k)) = [] := by
    rw [List.filter_eq_nil_iff]
    intro a ha
    rcases List.mem_map.mp ha with ⟨x, _, rfl⟩
    simp only [decide_eq_true_eq]
    omega
  rw [e1, e2, e3]
  simp

theorem getD_mem_of_lt {π : List Nat} {p : Nat} (h : p < π.length) :
    π.getD p 0 ∈ π := by
  rw [List.getD_eq_getElem _ _ h]
  exact List.getElem_mem h

theorem getD_append_right (a b : List Nat) {q : Nat} (hq : q < b.length) :
    (a ++ b).getD (a.length + q) 0 = b.getD q 0 := by
  rw [List.getD_eq_getElem _ _ (by simp; omega),
    List.getD_eq_getElem _ _ hq,
    List.getElem_append_right (by omega)]
  congr 1
  omega

/-- The multiplicity a processed name `t` decrements node `i` by. -/
theorem pair_event_mult {l : List NodeP} {π : List Nat} {p : Nat}
    (hπlen : π.length = l.length) (hπmem : ∀ x ∈ π, x < l.length)
    (hp : p < l.length) (t : String) :
    (if t = "" then 0
      else if p < (π.map (getN l)).length then
        (getN (π.map (getN l)) p).input.count t else 0)
    = (if t = "" then 0
      else if π.getD p 0 < l.length then (getN l (π.getD p 0)).input.count t
        else 0) := by
  by_cases ht : t = ""
  · rw [if_pos ht, if_pos ht]
  · rw [if_neg ht, if_neg ht,
      if_pos (by simpa [hπlen] using hp),
      if_pos (hπmem _ (getD_mem_of_lt (by omega))),
      getN_map (by omega)]

/-- Guardless variant over the permuted node list. -/
theorem pair_event_mult2 {l : List NodeP} {π : List Nat} {p : Nat}
    (hπ : p < π.length) (t : String) :
    (if t = "" then 0 else (getN (π.map (getN l)) p).input.count t)
    = (if t = "" then 0 else (getN l (π.getD p 0)).input.count t) := by
  by_cases ht : t = ""
  · rw [if_pos ht, if_pos ht]
  · rw [if_neg ht, if_neg ht, getN_map hπ]

theorem pair_event {l : List NodeP} {π : List Nat} {st1 st2 : SortSt} {t : String}
    (hπlen : π.length = l.length) (hπnd : π.Nodup)
    (hπmem : ∀ x ∈ π, x < l.length)
    (ha : ∀ p < l.length, st2.counts p = st1.counts (π.getD p 0))
    (hb : st2.order = List.range st1.order.length)
    (hc : (processName l st1 t).order <+: π) :
    (∀ p < l.length, (processName (π.map (getN l)) st2 t).counts p
        = (processName l st1 t).counts (π.getD p 0))
    ∧ (processName (π.map (getN l)) st2 t).order
        = List.range (processName l st1 t).order.length := by
  constructor
  · intro p hp
    rw [processName_counts, processName_counts, ha p hp,
      pair_event_mult hπlen hπmem hp t]
  · rw [processName_order_closed, processName_order_closed, hb]
    set m := st1.order.length with hm
    set A1 := (List.range l.length).filter
      (fun i => decide (0 < st1.counts i ∧ st1.counts i ≤
        ((if t = "" then 0 else (getN l i).input.count t : Nat) : Int))) with hA1
    rw [processName_order_closed, ← hA1] at hc
    have hm_le : m + A1.length ≤ π.length := by
      have h1 := hc.length_le
      rw [List.length_append] at h1
      omega
    have hA1pos : ∀ q, (hq : q < A1.length) → π.getD (m + q) 0 = A1.getD q 0 := by
      intro q hq
      rw [hm, prefix_getD hc (by rw [List.length_append]; omega) 0,
        getD_append_right _ _ hq]
    have hkey : ∀ p, p < π.length →
        ((0 < st2.counts p ∧ st2.counts p ≤
          ((if t = "" then 0
            else (getN (π.map (getN l)) p).input.count t : Nat) : Int))
        ↔ (m ≤ p ∧ p < m + A1.length)) := by
      intro p hpπ
      have hp : p < l.length := by omega
      have hgd : π.getD p 0 < l.length := hπmem _ (getD_mem_of_lt hpπ)
      rw [ha p hp, pair_event_mult2 hpπ t]
      constructor
      · intro hcond
        have hmemA : π.getD p 0 ∈ A1 := by
          rw [hA1]
          refine List.mem_filter.mpr ⟨List.mem_range.mpr hgd, ?_⟩
          simpa using hcond
        rcases List.mem_iff_getElem.mp hmemA with ⟨q, hq, hget⟩
        have hπq : π.getD (m + q) 0 = π.getD p 0 := by
          rw [hA1pos q hq, List.getD_eq_getElem _ _ hq, hget]
        have hpq : p = m + q := by
          have hq1 : m + q < π.length := by omega
          have hp1 : p < π.length := by omega
          have h1 : π[m + q] = π[p] := by
            rw [← List.getD_eq_getElem π 0 hq1, ← List.getD_eq_getElem π 0 hp1]
            exact hπq
          exact (hπnd.getElem_inj_iff.mp h1).symm
        omega
      · rintro ⟨h1, h2⟩
        have hq : p - m < A1.length := by omega
        have := hA1pos (p - m) hq
        have hpm : m + (p - m) = p := by omega
        rw [hpm] at this
        have hmemA : π.getD p 0 ∈ A1 := by
          rw [this, List.getD_eq_getElem _ _ hq]
          exact List.getElem_mem hq
        have := List.mem_filter.mp (hA1 ▸ hmemA)
        simpa using this.2
    have hfilter : (List.range (π.map (getN l)).length).filter
        (fun p => decide (0 < st2.counts p ∧ st2.counts p ≤
          ((if t = "" then 0
            else (getN (π.map (getN l)) p).input.count t : Nat) : Int)))
        = (List.range π.length).filter
            (fun p => decide (m ≤ p ∧ p < m + A1.length)) := by
      have hlen2 : (π.map (getN l)).length = π.length := by simp
      rw [hlen2]
      apply List.filter_congr
      intro p hpm
      have hpπ := List.mem_range.mp hpm
      exact decide_eq_decide.mpr (hkey p hpπ)
    rw [hfilter, filter_range_segment _ _ _ hm_le, ← List.range_add]
    congr 1
    simp

theorem pair_fold {l : List NodeP} {π : List Nat}
    (hπlen : π.length = l.length) (hπnd : π.Nodup)
    (hπmem : ∀ x ∈ π, x < l.length) :
    ∀ (ts : List String) (st1 st2 : SortSt),
    ((ts.foldl (processName l) st1).order <+: π) →
    (∀ p < l.length, st2.counts p = st1.counts (π.getD p 0)) →
    (st2.order = List.range st1.order.length) →
    (∀ p < l.length, (ts.foldl (processName (π.map (getN l))) st2).counts p
       = (ts.foldl (processName l) st1).counts (π.getD p 0))
    ∧ (ts.foldl (processName (π.map (getN l))) st2).order
       = List.range (ts.foldl (processName l) st1).order.length
  | [], _, _, _, ha, hb => ⟨ha, hb⟩
  | t :: ts, st1, st2, hpre, ha, hb => by
      rw [List.foldl_cons] at hpre ⊢
      rw [List.foldl_cons]
      have hc : (processName l st1 t).order <+: π :=
        (foldl_processName_order_extends l ts (processName l st1 t)).trans hpre
      have hev := pair_event hπlen hπnd hπmem ha hb hc
      exact pair_fold hπlen hπnd hπmem ts (processName l st1 t)
        (processName (π.map (getN l)) st2 t) hpre hev.1 hev.2

theorem phase3_pair {l : List NodeP} {π : List Nat}
    (hπlen : π.length = l.length) (hπnd : π.Nodup)
    (hπmem : ∀ x ∈ π, x < l.length) :
    ∀ (fuel start : Nat) (st1 st2 : SortSt),
    (phase3 l fuel st1 start).order = π →
    (∀ p < l.length, st2.counts p = st1.counts (π.getD p 0)) →
    (st2.order = List.range st1.order.length) →
    (phase3 (π.map (getN l)) fuel st2 start).order = List.range π.length
  | 0, start, st1, st2, hfut, _, hb => by
      rw [phase3] at hfut
      rw [phase3, hb, hfut]
  | fuel + 1, start, st1, st2, hfut, ha, hb => by
      rw [phase3] at hfut
      rw [phase3]
      have hlen2 : st2.order.length = st1.order.length := by
        rw [hb]
        simp
      split
      · rename_i h2
        have h1 : start < st1.order.length := by omega
        rw [if_pos h1] at hfut
        have hst1pre : st1.order <+: π := by
          rw [← hfut]
          exact (foldl_processName_order_extends _ _ _).trans
            (phase3_order_extends _ _ _ _)
        have hgd : st2.order.getD start 0 = start := by
          rw [hb]
          exact range_getD (by omega)
        have hstartπ : start < π.length :=
          Nat.lt_of_lt_of_le h1 hst1pre.length_le
        have hnode : getN (π.map (getN l)) (st2.order.getD start 0)
            = getN l (st1.order.getD start 0) := by
          rw [hgd, getN_map hstartπ, prefix_getD hst1pre h1 0]
        have hfoldpre : (((getN l (st1.order.getD start 0)).output).foldl
            (processName l) st1).order <+: π := by
          rw [← hfut]
          exact phase3_order_extends _ _ _ _
        have hfold := pair_fold hπlen hπnd hπmem
          ((getN l (st1.order.getD start 0)).output) st1 st2 hfoldpre ha hb
        rw [hnode]
        exact phase3_pair hπlen hπnd hπmem fuel (start + 1) _ _ hfut
          hfold.1 hfold.2
      · rename_i h2
        have h1 : ¬ start < st1.order.length := by omega
        rw [if_neg h1] at hfut
        rw [hb, hfut]

theorem filter_range_lt (n k : Nat) (h : k ≤ n) :
    (List.range n).filter (fun p => decide (p < k)) = List.range k := by
  have hs := filter_range_segment n 0 k (by omega)
  have hmap : (List.range k).map (fun x => 0 + x) = List.range k := by
    simp
  rw [hmap] at hs
  rw [← hs]
  apply List.filter_congr
  intro x _
  exact decide_eq_decide.mpr (by omega)

theorem phase1_pair {l : List NodeP} {π : List Nat}
    (hπlen : π.length = l.length) (hπnd : π.Nodup)
    (hπmem : ∀ x ∈ π, x < l.length)
    (hpre : (phase1 l).order <+: π) :
    (∀ p < l.length, (phase1 (π.map (getN l))).counts p
        = (phase1 l).counts (π.getD p 0))
    ∧ (phase1 (π.map (getN l))).order = List.range (phase1 l).order.length := by
  constructor
  · intro p hp
    show ((depsOfNode (getN (π.map (getN l)) p) : Int)) = _
    rw [getN_map (by omega)]
    rfl
  · show (List.range (π.map (getN l)).length).filter
        (fun p => decide (depsOfNode (getN (π.map (getN l)) p) = 0))
      = List.range ((List.range l.length).filter
          (fun i => decide (depsOfNode (getN l i) = 0))).length
    set A := (List.range l.length).filter
      (fun i => decide (depsOfNode (getN l i) = 0)) with hA
    have hφ : (phase1 l).order = A := rfl
    rw [hφ] at hpre
    have hAlen : A.length ≤ π.length := hpre.length_le
    have hkey : ∀ p, p < π.length →
        (depsOfNode (getN (π.map (getN l)) p) = 0 ↔ p < A.length) := by
      intro p hpπ
      rw [getN_map hpπ]
      have hgd : π.getD p 0 < l.length := hπmem _ (getD_mem_of_lt hpπ)
      constructor
      · intro hz
        have hmemA : π.getD p 0 ∈ A := by
          rw [hA]
          exact List.mem_filter.mpr ⟨List.mem_range.mpr hgd, by simpa using hz⟩
        rcases List.mem_iff_getElem.mp hmemA with ⟨q, hq, hget⟩
        have hπq : π.getD q 0 = π.getD p 0 := by
          rw [prefix_getD hpre hq 0, List.getD_eq_getElem _ _ hq, hget]
        have : q = p := by
          have hq1 : q < π.length := by omega
          have hp1 : p < π.length := by omega
          have h1 : π[q] = π[p] := by
            rw [← List.getD_eq_getElem π 0 hq1, ← List.getD_eq_getElem π 0 hp1]
            exact hπq
          exact hπnd.getElem_inj_iff.mp h1
        omega
      · intro hp
        have hmemA : π.getD p 0 ∈ A := by
          rw [prefix_getD hpre hp 0, List.getD_eq_getElem _ _ hp]
          exact List.getElem_mem hp
        have := List.mem_filter.mp (hA ▸ hmemA)
        simpa using this.2
    have hlen2 : (π.map (getN l)).length = π.length := by simp
    rw [hlen2]
    have hfc : (List.range π.length).filter
        (fun p => decide (depsOfNode (getN (π.map (getN l)) p) = 0))
        = (List.range π.length).filter (fun p => decide (p < A.length)) := by
      apply List.filter_congr
      intro p hpm
      exact decide_eq_decide.mpr (hkey p (List.mem_range.mp hpm))
    rw [hfc, filter_range_lt _ _ hAlen]

set_option maxHeartbeats 1000000 in
/-- C6: `topological_sort` is idempotent — when it succeeds, running it again
on the resulting graph reproduces that graph unchanged.  The second run is
simulated through the permutation `π` (the first run's emission order): its
counters satisfy `counts2 p = counts1 (π p)` throughout, so it emits exactly
the positions `0, 1, 2, …` in order. -/
theorem topological_sort_idempotent (g g' : Graph)
    (h : topologicalSort g = .ok g') :
    topologicalSort g' = .ok g' := by
  unfold topologicalSort at h
  dsimp only at h
  split at h
  case isFalse => exact Except.noConfusion h
  rename_i hlen
  injection h with h
  subst h
  set π := (phase3 g.node (g.node.length + 1)
      ((sortedInitNames g).foldl (processName g.node) (phase1 g.node)) 0).order
    with hπdef
  have hOI : sortOrderInv g.node (phase3 g.node (g.node.length + 1)
      ((sortedInitNames g).foldl (processName g.node) (phase1 g.node)) 0) :=
    phase3_orderInv _ _ _
      (sortOrderInv_foldl_processName _ _ (phase1_orderInv g.node))
  have hπnd : π.Nodup := hOI.1
  have hπmem : ∀ x ∈ π, x < g.node.length := fun x hx => (hOI.2 x hx).2
  have hπlen : π.length = g.node.length := hlen
  have hp1pre : (phase1 g.node).order <+: π := by
    rw [hπdef]
    exact (foldl_processName_order_extends _ _ _).trans
      (phase3_order_extends _ _ _ _)
  have hp1 := phase1_pair hπlen hπnd hπmem hp1pre
  have hp2pre : ((sortedInitNames g).foldl (processName g.node)
      (phase1 g.node)).order <+: π := by
    rw [hπdef]
    exact phase3_order_extends _ _ _ _
  have hp2 := pair_fold hπlen hπnd hπmem (sortedInitNames g) (phase1 g.node)
    (phase1 (π.map (getN g.node))) hp2pre hp1.1 hp1.2
  have hp3 := phase3_pair hπlen hπnd hπmem (g.node.length + 1) 0 _ _
    hπdef.symm hp2.1 hp2.2
  unfold topologicalSort
  dsimp only
  have hl2len : (π.map (getN g.node)).length = g.node.length := by
    simp [hπlen]
  have hsort : sortedInitNames { g with node := π.map (getN g.node) }
      = sortedInitNames g := rfl
  have hph1 : phase1 ({ g with node := π.map (getN g.node) } : Graph).node
      = phase1 (π.map (getN g.node)) := rfl
  rw [hsort, hl2len, hp3]
  rw [if_pos (by simp [hπlen])]
  have hnode2 : (List.range π.length).map (getN (π.map (getN g.node)))
      = π.map (getN g.node) := by
    have hr : List.range π.length = List.range (π.map (getN g.node)).length := by
      rw [hl2len, hπlen]
    rw [hr, map_getN_range]
  rw [hnode2]

/-- C6 witness: idempotence applied to the concrete sorted output of `c6G`,
with the success hypothesis discharged by evaluation. -/
theorem topological_sort_idempotent_witness :
    topologicalSort c6Sorted = .ok c6Sorted :=
  topological_sort_idempotent c6G c6Sorted (by decide)

end Onnx
